import Mathlib

/-!
Shallow embedding of the temporal scroll-mapping engine of the
`bible-timeline` repository (source: the data-loader module holding
`buildYearMapping`, `getDisplayDate`, `getActiveBooksInfo`,
`getActiveMilestonesInfo`, `scrollToYear`, `yearToScroll`).

Modelling conventions:
* Calendar years are `ℤ`; scroll positions and weights are `ℝ`
  (the JS code computes with IEEE doubles; we use the exact real-number
  idealization of the same formulas, with `Real.sqrt` for `Math.sqrt`).
* `Math.round x` is `⌊x + 1/2⌋` (JS rounds halves toward +∞), see `jsRound`.
* The JS `Map` keyed by year is an association list with distinct keys in
  insertion order; `Map.get`/`Map.has` is `List.lookup`.
* Division is Lean's total real division.  The JS code can divide 0 by 0
  (producing `NaN`) in exactly one place — the position normalizer when
  the grid has a single year; the theorem for that degenerate case states
  what the formula yields under total division and the divergence is
  discussed where that case is settled.
-/

namespace BibleTimeline

/-- One book record.  The source stores four nullable fields
`dateEventsStart/dateEventsEnd/dateWrittenStart/dateWrittenEnd`; in the
data set a start is null exactly when its matching end is null, so each
pair is modelled as one optional pair.  Presentation-only fields (id,
name, …) are never inspected by the engine and are omitted. -/
structure Book where
  dateEvents : Option (ℤ × ℤ)
  dateWritten : Option (ℤ × ℤ)
deriving DecidableEq, Repr

/-- Display date of a book: the events range when present, otherwise the
writing range (source: `getDisplayDate`). -/
structure DisplayDate where
  range : Option (ℤ × ℤ)
  isWritingDate : Bool
deriving DecidableEq, Repr

def getDisplayDate (book : Book) : DisplayDate :=
  match book.dateEvents with
  | some r => ⟨some r, false⟩
  | none => ⟨book.dateWritten, true⟩

/-- Milestone record: canonical year plus the wider display envelope used
for density weighting (source: the `MILESTONES` constant's shape). -/
structure Milestone where
  year : ℤ
  displayStart : ℤ
  displayEnd : ℤ
deriving DecidableEq, Repr

/-- Interval `{start, end}` as pushed into `bookRanges` /
`milestoneRanges` (`end` is a Lean keyword, hence `stop`). -/
structure Range where
  start : ℤ
  stop : ℤ
deriving DecidableEq, Repr

/-- Event kinds `start` / `end` / `milestone-start` / `milestone-end`. -/
inductive EventKind where
  | bookStart | bookEnd | milestoneStart | milestoneEnd
deriving DecidableEq, Repr

/-- A `(year, kind)` boundary event.  The source also carries the whole
book/milestone record on the event for the view layer; the engine only
reads `year`. -/
structure Event where
  year : ℤ
  kind : EventKind
deriving DecidableEq, Repr

/-- Events contributed by one book: start and end of its display range,
skipped when the book has no usable date (source: the `books.forEach`
loop of `buildYearMapping`). -/
def bookEvents (b : Book) : List Event :=
  match (getDisplayDate b).range with
  | some (s, e) => [⟨s, .bookStart⟩, ⟨e, .bookEnd⟩]
  | none => []

/-- Events contributed by one milestone: displayStart and displayEnd
(source: the `milestones.forEach` loop of `buildYearMapping`). -/
def milestoneEvents (m : Milestone) : List Event :=
  [⟨m.displayStart, .milestoneStart⟩, ⟨m.displayEnd, .milestoneEnd⟩]

/-- All events, books first then milestones, in input order (source: the
two `forEach` loops pushing into `events`). -/
def collectEvents (books : List Book) (milestones : List Milestone) : List Event :=
  (books.flatMap bookEvents) ++ (milestones.flatMap milestoneEvents)

/-- The `bookRanges` array: display range of every dated book. -/
def bookRanges (books : List Book) : List Range :=
  books.filterMap fun b =>
    match (getDisplayDate b).range with
    | some (s, e) => some ⟨s, e⟩
    | none => none

/-- The `milestoneRanges` array (the source also stores the canonical
`year` alongside; it is never read for density, so it is dropped). -/
def milestoneRanges (milestones : List Milestone) : List Range :=
  milestones.map fun m => ⟨m.displayStart, m.displayEnd⟩

/-- JS `Math.round`: round to the nearest integer, halves toward `+∞`. -/
noncomputable def jsRound (x : ℝ) : ℤ := ⌊x + 1 / 2⌋

/-- The grid of distinct event years with the current year appended, in
ascending order (source: `[...new Set(events.map(e => e.year)),
CURRENT_YEAR].sort((a, b) => a - b)`).  The JS array keeps a duplicate of
the current year when it is already an event year, but the two duplicated
entries are adjacent after sorting, the zero-length segment between them
gets weight `sqrt(0) * … = 0`, and `Map.set` collapses the two equal
`(year, position)` entries into one, so the resulting table is exactly
the one computed over the de-duplicated grid used here. -/
def uniqueYears (books : List Book) (milestones : List Milestone) (currentYear : ℤ) : List ℤ :=
  List.insertionSort (· ≤ ·)
    (((collectEvents books milestones).map Event.year ++ [currentYear]).dedup)

/-- Active-book query result (source: `getActiveBooksInfo`); `none` for
`minDuration` encodes the JS `Infinity` of the no-active-book case. -/
structure ActiveBooksInfo where
  count : ℕ
  books : List Range
  minDuration : Option ℤ
deriving DecidableEq, Repr

def getActiveBooksInfo (ranges : List Range) (year : ℤ) : ActiveBooksInfo :=
  let active := ranges.filter fun r => decide (r.start ≤ year ∧ year ≤ r.stop)
  ⟨active.length, active, (active.map fun r => r.stop - r.start).min?⟩

/-- Active-milestone query result (source: `getActiveMilestonesInfo`). -/
structure ActiveMilestonesInfo where
  count : ℕ
  milestones : List Range
deriving DecidableEq, Repr

def getActiveMilestonesInfo (ranges : List Range) (year : ℤ) : ActiveMilestonesInfo :=
  let active := ranges.filter fun r => decide (r.start ≤ year ∧ year ≤ r.stop)
  ⟨active.length, active⟩

/-- The book-density multiplier: base `4 + count * 1.5`, further
multiplied by `max 1 (4 - minDuration / 33)` when the shortest active
book lasts under 100 years (source: the `densityMultiplier` /
`durationBonus` block of `buildYearMapping`).  The `none` branch is the
JS `Infinity < 100` test evaluating to false. -/
noncomputable def densityMultiplier (ranges : List Range) (midYear : ℤ) : ℝ :=
  let info := getActiveBooksInfo ranges midYear
  let dm : ℝ := 4 + (info.count : ℝ) * 1.5
  match info.minDuration with
  | some d => if d < 100 then dm * max 1 (4 - (d : ℝ) / 33) else dm
  | none => dm

/-- Weight of the segment between two consecutive grid years (source: the
body of the `for` loop of `buildYearMapping` computing `scrollWeight`). -/
noncomputable def segmentWeight (br mr : List Range) (prevYear year : ℤ) : ℝ :=
  let gap : ℤ := year - prevYear
  let base : ℝ := Real.sqrt |(gap : ℝ)|
  let midYear : ℤ := jsRound (((prevYear : ℝ) + (year : ℝ)) / 2)
  let info := getActiveBooksInfo br midYear
  let minfo := getActiveMilestonesInfo mr midYear
  if 0 < info.count then base * densityMultiplier br midYear
  else if 0 < minfo.count then base * (40 + (minfo.count : ℝ) * 20)
  else base

/-- Tail of the accumulation loop: starting after year `prev` with
accumulated weight `acc`, assign each following grid year its running
total (source: the `accumulatedPosition += scrollWeight;
yearPositions.set(year, accumulatedPosition)` loop). -/
noncomputable def accList (br mr : List Range) : ℤ → ℝ → List ℤ → List (ℤ × ℝ)
  | _, _, [] => []
  | prev, acc, y :: ys =>
      let acc' := acc + segmentWeight br mr prev y
      (y, acc') :: accList br mr y acc' ys

/-- The `yearPositions` map as an association list in grid order: the
first grid year gets accumulated position 0 and each later year the
running total of segment weights. -/
noncomputable def yearPositions (br mr : List Range) (grid : List ℤ) : List (ℤ × ℝ) :=
  match grid with
  | [] => []
  | y :: ys => (y, 0) :: accList br mr y 0 ys

/-- The final value of `accumulatedPosition`, i.e. the accumulated
position of the last grid year (0 for a single-year grid). -/
noncomputable def totalAccumulated (br mr : List Range) (grid : List ℤ) : ℝ :=
  match (yearPositions br mr grid).getLast? with
  | some p => p.2
  | none => 0

def marginStart : ℝ := 0.02

def marginEnd : ℝ := 0.02

noncomputable def usableRange : ℝ := 1 - marginStart - marginEnd

/-- The `normalizedPositions` map: every accumulated position rescaled by
`marginStart + (pos / totalAccumulated) * usableRange`. -/
noncomputable def normalizedPositions (br mr : List Range) (grid : List ℤ) : List (ℤ × ℝ) :=
  (yearPositions br mr grid).map fun p =>
    (p.1, marginStart + (p.2 / totalAccumulated br mr grid) * usableRange)

/-- The `sortedYears` array: table entries sorted by normalized position.
The entries come out of the map in key-insertion order, which is
ascending grid order; the accumulated values are non-decreasing in that
order and the rescaling is monotone, so the JS stable sort by position is
the identity (this is proved as `normalizedPositions_snd_strict` plus
`segmentWeight_nonneg` below) and the table is used as built. -/
noncomputable def sortedYears (br mr : List Range) (grid : List ℤ) : List (ℤ × ℝ) :=
  normalizedPositions br mr grid

/-- Bracket scan of `scrollToYear`: walk consecutive table entries and
linearly interpolate the year inside the first bracketing pair; fall
through to the given default (the last table year in the source). -/
noncomputable def interpolateScan (p : ℝ) : List (ℤ × ℝ) → ℤ → ℤ
  | (y1, p1) :: (y2, p2) :: rest, dflt =>
      if p1 ≤ p ∧ p ≤ p2 then
        jsRound ((y1 : ℝ) + (p - p1) / (p2 - p1) * ((y2 : ℝ) - (y1 : ℝ)))
      else interpolateScan p ((y2, p2) :: rest) dflt
  | _, dflt => dflt

/-- The `scrollToYear` closure built over a table: clamp to `[0, 1]`,
return the boundary year at or beyond either table extreme, otherwise
interpolate between the bracketing entries.  The source indexes
`sortedYears[0]` unconditionally, so the empty-table branch here is
unreachable for any table the source ever builds (the grid always holds
the current year). -/
noncomputable def scrollToYearFn (table : List (ℤ × ℝ)) (scrollPos : ℝ) : ℤ :=
  match table with
  | [] => 0
  | first :: rest =>
      let p := max 0 (min 1 scrollPos)
      let last := (first :: rest).getLast (List.cons_ne_nil first rest)
      if p ≤ first.2 then first.1
      else if last.2 ≤ p then last.1
      else interpolateScan p (first :: rest) last.1

/-- Bracket scan of `yearToScroll`: walk consecutive table entries in
year order and linearly interpolate the position inside the first
bracketing pair. -/
noncomputable def yearScan (y : ℤ) : List (ℤ × ℝ) → ℝ → ℝ
  | (y1, p1) :: (y2, p2) :: rest, dflt =>
      if y1 ≤ y ∧ y ≤ y2 then
        p1 + (((y - y1 : ℤ) : ℝ) / ((y2 - y1 : ℤ) : ℝ)) * (p2 - p1)
      else yearScan y ((y2, p2) :: rest) dflt
  | _, dflt => dflt

/-- The `yearToScroll` closure built over a table: exact-match lookup for
grid years, clamping outside the year range, linear interpolation between
bracketing grid years otherwise.  The source re-sorts the map entries by
year on every call; the table is already in ascending year order (keys
are the sorted grid), so that sort is the identity here. -/
noncomputable def yearToScrollFn (table : List (ℤ × ℝ)) (year : ℤ) : ℝ :=
  match table.lookup year with
  | some p => p
  | none =>
      match table with
      | [] => 0
      | first :: rest =>
          let last := (first :: rest).getLast (List.cons_ne_nil first rest)
          if year ≤ first.1 then first.2
          else if last.1 ≤ year then last.2
          else yearScan year (first :: rest) last.2

/-- The full normalized position table of a build. -/
noncomputable def theTable (books : List Book) (milestones : List Milestone)
    (currentYear : ℤ) : List (ℤ × ℝ) :=
  sortedYears (bookRanges books) (milestoneRanges milestones)
    (uniqueYears books milestones currentYear)

/-- The mapping object returned by `buildYearMapping`. -/
structure YearMapping where
  scrollToYear : ℝ → ℤ
  yearToScroll : ℤ → ℝ
  minYear : ℤ
  maxYear : ℤ
  events : List Event

/-- The engine constructor (source: `buildYearMapping`).  The current
real-world year (`CURRENT_YEAR = new Date().getFullYear()` in the
source) is passed explicitly.  With no events at all it returns the fixed
linear identity fallback over −4000‥100; otherwise it sorts the events,
takes `minYear` from the first sorted event, sets `maxYear` to the
current year and builds the interpolation table. -/
noncomputable def buildYearMapping (books : List Book) (milestones : List Milestone)
    (currentYear : ℤ) : YearMapping :=
  let sortedEvents := List.insertionSort (fun a b => a.year ≤ b.year)
    (collectEvents books milestones)
  match sortedEvents with
  | [] =>
      { scrollToYear := fun scroll => jsRound (-4000 + scroll * 4100)
        yearToScroll := fun year => ((year : ℝ) + 4000) / 4100
        minYear := -4000
        maxYear := 100
        events := [] }
  | e :: es =>
      { scrollToYear := scrollToYearFn (theTable books milestones currentYear)
        yearToScroll := yearToScrollFn (theTable books milestones currentYear)
        minYear := e.year
        maxYear := currentYear
        events := e :: es }

/-! ### Basic lemmas on rounding and multipliers -/

theorem jsRound_intCast (n : ℤ) : jsRound ((n : ℝ)) = n := by
  unfold jsRound
  rw [Int.floor_int_add]
  norm_num

theorem le_jsRound {a : ℤ} {x : ℝ} (h : (a : ℝ) ≤ x) : a ≤ jsRound x := by
  unfold jsRound
  have : a = ⌊(a : ℝ) + 1 / 2⌋ := by rw [Int.floor_int_add]; norm_num
  rw [this]
  exact Int.floor_le_floor (by linarith)

theorem jsRound_le {b : ℤ} {x : ℝ} (h : x ≤ (b : ℝ)) : jsRound x ≤ b := by
  unfold jsRound
  have hlt : ⌊x + 1 / 2⌋ < b + 1 := by
    rw [Int.floor_lt]
    push_cast
    linarith
  omega

theorem densityMultiplier_ge_four (br : List Range) (y : ℤ) :
    4 ≤ densityMultiplier br y := by
  unfold densityMultiplier
  have hbase : (4 : ℝ) ≤ 4 + ((getActiveBooksInfo br y).count : ℝ) * 1.5 := by
    have : (0 : ℝ) ≤ ((getActiveBooksInfo br y).count : ℝ) := Nat.cast_nonneg _
    nlinarith
  cases hmin : (getActiveBooksInfo br y).minDuration with
  | none => simpa [hmin] using hbase
  | some d =>
      simp only [hmin]
      by_cases hd : d < 100
      · simp only [if_pos hd]
        have h1 : (1 : ℝ) ≤ max 1 (4 - (d : ℝ) / 33) := le_max_left _ _
        nlinarith
      · simpa [if_neg hd] using hbase

theorem densityMultiplier_pos (br : List Range) (y : ℤ) :
    0 < densityMultiplier br y :=
  lt_of_lt_of_le (by norm_num) (densityMultiplier_ge_four br y)

theorem segmentWeight_nonneg (br mr : List Range) (a b : ℤ) :
    0 ≤ segmentWeight br mr a b := by
  unfold segmentWeight
  have hs : 0 ≤ Real.sqrt |((b - a : ℤ) : ℝ)| := Real.sqrt_nonneg _
  have hms : (0 : ℝ) ≤ 40 + ((getActiveMilestonesInfo mr
      (jsRound (((a : ℝ) + (b : ℝ)) / 2))).count : ℝ) * 20 := by
    have : (0 : ℝ) ≤ ((getActiveMilestonesInfo mr
        (jsRound (((a : ℝ) + (b : ℝ)) / 2))).count : ℝ) := Nat.cast_nonneg _
    nlinarith
  have hdm := densityMultiplier_pos br (jsRound (((a : ℝ) + (b : ℝ)) / 2))
  dsimp only
  split_ifs
  · exact mul_nonneg hs (le_of_lt hdm)
  · exact mul_nonneg hs hms
  · exact hs

theorem segmentWeight_pos {a b : ℤ} (br mr : List Range) (hab : a < b) :
    0 < segmentWeight br mr a b := by
  unfold segmentWeight
  have hone : (1 : ℝ) ≤ ((b - a : ℤ) : ℝ) := by
    exact_mod_cast (by omega : (1 : ℤ) ≤ b - a)
  have hgap : (1 : ℝ) ≤ |((b - a : ℤ) : ℝ)| := le_trans hone (le_abs_self _)
  have hs : 0 < Real.sqrt |((b - a : ℤ) : ℝ)| := Real.sqrt_pos.mpr (by linarith)
  have hms : (0 : ℝ) < 40 + ((getActiveMilestonesInfo mr
      (jsRound (((a : ℝ) + (b : ℝ)) / 2))).count : ℝ) * 20 := by
    have : (0 : ℝ) ≤ ((getActiveMilestonesInfo mr
        (jsRound (((a : ℝ) + (b : ℝ)) / 2))).count : ℝ) := Nat.cast_nonneg _
    nlinarith
  have hdm := densityMultiplier_pos br (jsRound (((a : ℝ) + (b : ℝ)) / 2))
  dsimp only
  split_ifs
  · exact mul_pos hs hdm
  · exact mul_pos hs hms
  · exact hs

/-! ### Grid structure -/

theorem uniqueYears_sorted_le (books : List Book) (ms : List Milestone) (cy : ℤ) :
    (uniqueYears books ms cy).Sorted (· ≤ ·) :=
  List.sorted_insertionSort _ _

theorem uniqueYears_nodup (books : List Book) (ms : List Milestone) (cy : ℤ) :
    (uniqueYears books ms cy).Nodup :=
  (List.perm_insertionSort _ _).nodup_iff.mpr (List.nodup_dedup _)

theorem uniqueYears_sorted_lt (books : List Book) (ms : List Milestone) (cy : ℤ) :
    (uniqueYears books ms cy).Sorted (· < ·) :=
  List.Pairwise.imp₂ (fun _ _ hle hne => lt_of_le_of_ne hle hne)
    (uniqueYears_sorted_le books ms cy) (uniqueYears_nodup books ms cy)

theorem mem_uniqueYears {books : List Book} {ms : List Milestone} {cy y : ℤ} :
    y ∈ uniqueYears books ms cy ↔
      (y ∈ (collectEvents books ms).map Event.year ∨ y = cy) := by
  unfold uniqueYears
  rw [(List.perm_insertionSort _ _).mem_iff, List.mem_dedup, List.mem_append]
  simp

theorem currentYear_mem_uniqueYears (books : List Book) (ms : List Milestone) (cy : ℤ) :
    cy ∈ uniqueYears books ms cy :=
  mem_uniqueYears.mpr (Or.inr rfl)

theorem uniqueYears_ne_nil (books : List Book) (ms : List Milestone) (cy : ℤ) :
    uniqueYears books ms cy ≠ [] :=
  List.ne_nil_of_mem (currentYear_mem_uniqueYears books ms cy)

/-! ### Structure of the accumulated position table -/

theorem accList_map_fst (br mr : List Range) (ys : List ℤ) :
    ∀ (prev : ℤ) (acc : ℝ), (accList br mr prev acc ys).map Prod.fst = ys := by
  induction ys with
  | nil => intro prev acc; rfl
  | cons y ys ih => intro prev acc; simp only [accList, List.map_cons, ih]

theorem yearPositions_map_fst (br mr : List Range) (grid : List ℤ) :
    (yearPositions br mr grid).map Prod.fst = grid := by
  cases grid with
  | nil => rfl
  | cons y ys => simp only [yearPositions, List.map_cons, accList_map_fst]

theorem yearPositions_ne_nil (br mr : List Range) {grid : List ℤ} (h : grid ≠ []) :
    yearPositions br mr grid ≠ [] := by
  cases grid with
  | nil => exact absurd rfl h
  | cons y ys => simp [yearPositions]

theorem chain'_and {α : Type} {R S : α → α → Prop} :
    ∀ {l : List α}, l.Chain' R → l.Chain' S → l.Chain' (fun a b => R a b ∧ S a b) := by
  intro l
  induction l with
  | nil => intro _ _; exact List.chain'_nil
  | cons a l ih =>
      cases l with
      | nil => intro _ _; simp
      | cons b l =>
          intro hR hS
          rw [List.chain'_cons] at hR hS ⊢
          exact ⟨⟨hR.1, hS.1⟩, ih hR.2 hS.2⟩

theorem accList_chain (br mr : List Range) (ys : List ℤ) :
    ∀ (prev : ℤ) (acc : ℝ),
      List.Chain' (fun p q => q.2 = p.2 + segmentWeight br mr p.1 q.1)
        ((prev, acc) :: accList br mr prev acc ys) := by
  induction ys with
  | nil => intro prev acc; simp [accList]
  | cons y ys ih =>
      intro prev acc
      simp only [accList]
      rw [List.chain'_cons]
      exact ⟨rfl, ih y (acc + segmentWeight br mr prev y)⟩

theorem yearPositions_chain (br mr : List Range) (grid : List ℤ) :
    List.Chain' (fun p q => q.2 = p.2 + segmentWeight br mr p.1 q.1)
      (yearPositions br mr grid) := by
  cases grid with
  | nil => exact List.chain'_nil
  | cons y ys => simpa [yearPositions] using accList_chain br mr ys y 0

theorem yearPositions_chain_fst_lt (br mr : List Range) {grid : List ℤ}
    (hs : grid.Sorted (· < ·)) :
    List.Chain' (fun p q : ℤ × ℝ => p.1 < q.1) (yearPositions br mr grid) := by
  have h := hs.chain'
  rw [← yearPositions_map_fst br mr grid] at h
  exact (List.chain'_map _).mp h

theorem yearPositions_chain_snd_lt (br mr : List Range) {grid : List ℤ}
    (hs : grid.Sorted (· < ·)) :
    List.Chain' (fun p q : ℤ × ℝ => p.2 < q.2) (yearPositions br mr grid) := by
  refine (chain'_and (yearPositions_chain br mr grid)
    (yearPositions_chain_fst_lt br mr hs)).imp ?_
  rintro p q ⟨heq, hlt⟩
  have hw := segmentWeight_pos br mr hlt
  rw [heq]
  linarith

theorem yearPositions_chain_snd_le (br mr : List Range) (grid : List ℤ) :
    List.Chain' (fun p q : ℤ × ℝ => p.2 ≤ q.2) (yearPositions br mr grid) := by
  refine (yearPositions_chain br mr grid).imp ?_
  intro p q heq
  have hw := segmentWeight_nonneg br mr p.1 q.1
  rw [heq]
  linarith

theorem yearPositions_pairwise_snd_lt (br mr : List Range) {grid : List ℤ}
    (hs : grid.Sorted (· < ·)) :
    List.Pairwise (fun p q : ℤ × ℝ => p.2 < q.2) (yearPositions br mr grid) := by
  haveI : IsTrans (ℤ × ℝ) (fun p q : ℤ × ℝ => p.2 < q.2) := ⟨fun _ _ _ h1 h2 => lt_trans h1 h2⟩
  rw [← List.chain'_iff_pairwise]
  exact yearPositions_chain_snd_lt br mr hs

theorem yearPositions_pairwise_snd_le (br mr : List Range) (grid : List ℤ) :
    List.Pairwise (fun p q : ℤ × ℝ => p.2 ≤ q.2) (yearPositions br mr grid) := by
  haveI : IsTrans (ℤ × ℝ) (fun p q : ℤ × ℝ => p.2 ≤ q.2) := ⟨fun _ _ _ h1 h2 => le_trans h1 h2⟩
  rw [← List.chain'_iff_pairwise]
  exact yearPositions_chain_snd_le br mr grid

theorem pairwise_snd_le_getLast :
    ∀ {l : List (ℤ × ℝ)}, l.Pairwise (fun p q => p.2 ≤ q.2) → ∀ (hne : l ≠ []),
      ∀ x ∈ l, x.2 ≤ (l.getLast hne).2 := by
  intro l
  induction l with
  | nil => intro _ hne; exact absurd rfl hne
  | cons a l ih =>
      intro h hne x hx
      cases l with
      | nil =>
          rw [List.mem_singleton] at hx
          subst hx
          exact le_refl _
      | cons b l =>
          rw [List.getLast_cons (List.cons_ne_nil b l)]
          rcases List.mem_cons.mp hx with rfl | hx'
          · exact (List.pairwise_cons.mp h).1 _ (List.getLast_mem (List.cons_ne_nil b l))
          · exact ih (List.pairwise_cons.mp h).2 (List.cons_ne_nil b l) x hx'

theorem totalAccumulated_eq_getLast (br mr : List Range) {grid : List ℤ} (h : grid ≠ []) :
    totalAccumulated br mr grid =
      ((yearPositions br mr grid).getLast (yearPositions_ne_nil br mr h)).2 := by
  unfold totalAccumulated
  rw [List.getLast?_eq_getLast _ (yearPositions_ne_nil br mr h)]

theorem yearPositions_snd_nonneg (br mr : List Range) (grid : List ℤ) :
    ∀ x ∈ yearPositions br mr grid, 0 ≤ x.2 := by
  cases grid with
  | nil => intro x hx; simp [yearPositions] at hx
  | cons y ys =>
      intro x hx
      rcases List.mem_cons.mp hx with rfl | hx'
      · exact le_refl _
      · have h := (List.pairwise_cons.mp
          (yearPositions_pairwise_snd_le br mr (y :: ys))).1 x hx'
        simpa using h

theorem yearPositions_snd_le_total (br mr : List Range) {grid : List ℤ} (h : grid ≠ []) :
    ∀ x ∈ yearPositions br mr grid, x.2 ≤ totalAccumulated br mr grid := by
  intro x hx
  rw [totalAccumulated_eq_getLast br mr h]
  exact pairwise_snd_le_getLast (yearPositions_pairwise_snd_le br mr grid) _ x hx

theorem totalAccumulated_nonneg (br mr : List Range) (grid : List ℤ) :
    0 ≤ totalAccumulated br mr grid := by
  cases grid with
  | nil => simp [totalAccumulated, yearPositions]
  | cons y ys =>
      rw [totalAccumulated_eq_getLast br mr (List.cons_ne_nil y ys)]
      exact yearPositions_snd_nonneg br mr (y :: ys) _
        (List.getLast_mem (yearPositions_ne_nil br mr (List.cons_ne_nil y ys)))

theorem totalAccumulated_pos (br mr : List Range) {grid : List ℤ}
    (hs : grid.Sorted (· < ·)) (h2 : 2 ≤ grid.length) :
    0 < totalAccumulated br mr grid := by
  match grid, hs, h2 with
  | y :: z :: ys, hs, _ =>
      have hyz : y < z := (List.pairwise_cons.mp hs).1 z (List.mem_cons_self z ys)
      have hw := segmentWeight_pos br mr hyz
      have hmem : ((z, 0 + segmentWeight br mr y z) : ℤ × ℝ) ∈
          yearPositions br mr (y :: z :: ys) := by
        simp only [yearPositions, accList]
        exact List.mem_cons_of_mem _ (List.mem_cons_self _ _)
      have hle := yearPositions_snd_le_total br mr (List.cons_ne_nil y (z :: ys)) _ hmem
      simp only at hle
      linarith

theorem normalizedPositions_map_fst (br mr : List Range) (grid : List ℤ) :
    (normalizedPositions br mr grid).map Prod.fst = grid := by
  unfold normalizedPositions
  rw [List.map_map]
  have h : (Prod.fst ∘ fun p : ℤ × ℝ =>
      (p.1, marginStart + p.2 / totalAccumulated br mr grid * usableRange)) = Prod.fst := rfl
  rw [h, yearPositions_map_fst]

theorem usableRange_pos : (0 : ℝ) < usableRange := by
  norm_num [usableRange, marginStart, marginEnd]

theorem normalizedPositions_pairwise_snd_lt (br mr : List Range) {grid : List ℤ}
    (hs : grid.Sorted (· < ·)) (h2 : 2 ≤ grid.length) :
    List.Pairwise (fun p q : ℤ × ℝ => p.2 < q.2) (normalizedPositions br mr grid) := by
  have hT := totalAccumulated_pos br mr hs h2
  unfold normalizedPositions
  rw [List.pairwise_map]
  refine (yearPositions_pairwise_snd_lt br mr hs).imp ?_
  intro p q hlt
  dsimp only
  have hu := usableRange_pos
  rw [div_eq_mul_inv, div_eq_mul_inv]
  have hTi : 0 < (totalAccumulated br mr grid)⁻¹ := inv_pos.mpr hT
  nlinarith [mul_pos (mul_pos (sub_pos.mpr hlt) hTi) usableRange_pos]

theorem normalizedPositions_snd_bounds (br mr : List Range) (grid : List ℤ) :
    ∀ x ∈ normalizedPositions br mr grid,
      marginStart ≤ x.2 ∧ x.2 ≤ marginStart + usableRange := by
  intro x hx
  unfold normalizedPositions at hx
  rcases List.mem_map.mp hx with ⟨p, hp, rfl⟩
  have hgridne : grid ≠ [] := by
    intro hnil
    subst hnil
    simp [yearPositions] at hp
  have h0 := yearPositions_snd_nonneg br mr grid p hp
  have hle := yearPositions_snd_le_total br mr hgridne p hp
  have hTnn := totalAccumulated_nonneg br mr grid
  have hu := usableRange_pos
  dsimp only
  rcases eq_or_lt_of_le hTnn with hT0 | hTpos
  · have hp0 : p.2 = 0 := le_antisymm (by rw [← hT0] at hle; exact hle) h0
    rw [hp0, zero_div]
    constructor <;> nlinarith
  · have hdiv : 0 ≤ p.2 / totalAccumulated br mr grid := div_nonneg h0 (le_of_lt hTpos)
    have hdiv1 : p.2 / totalAccumulated br mr grid ≤ 1 := (div_le_one hTpos).mpr hle
    constructor <;> nlinarith

theorem lookup_eq_some_of_mem :
    ∀ {l : List (ℤ × ℝ)}, (l.map Prod.fst).Nodup → ∀ {x : ℤ} {v : ℝ}, (x, v) ∈ l →
      l.lookup x = some v := by
  intro l
  induction l with
  | nil => intro _ x v hm; simp at hm
  | cons a l ih =>
      intro hnd x v hm
      rcases List.mem_cons.mp hm with heq | hm'
      · rw [← heq]
        simp [List.lookup]
      · have hnd' : (a.1 :: l.map Prod.fst).Nodup := by
          rw [List.map_cons] at hnd
          exact hnd
        have hx : x ≠ a.1 := by
          intro h
          apply (List.nodup_cons.mp hnd').1
          rw [h] at hm'
          exact List.mem_map.mpr ⟨(a.1, v), hm', rfl⟩
        have hbeq : (x == a.1) = false := beq_eq_false_iff_ne.mpr hx
        cases a with
        | mk k w =>
            simp only [List.lookup, hbeq]
            exact ih (List.nodup_cons.mp hnd').2 hm'

theorem lookup_eq_none_of_not_mem :
    ∀ {l : List (ℤ × ℝ)} {x : ℤ}, x ∉ l.map Prod.fst → l.lookup x = none := by
  intro l
  induction l with
  | nil => intro x _; rfl
  | cons a l ih =>
      intro x hx
      have hx1 : x ≠ a.1 := fun h => hx (by rw [h]; exact List.mem_map.mpr ⟨a, List.mem_cons_self a l, rfl⟩)
      have hbeq : (x == a.1) = false := beq_eq_false_iff_ne.mpr hx1
      cases a with
      | mk k w =>
          simp only [List.lookup, hbeq]
          exact ih fun hmem => hx (List.mem_cons_of_mem _ hmem)

/-! ### Generic helpers about heads and last elements of pairwise lists -/

theorem pairwise_getLast_rel {α : Type} {R : α → α → Prop} (hrefl : ∀ a, R a a) :
    ∀ {l : List α}, l.Pairwise R → ∀ (hne : l ≠ []), ∀ x ∈ l, R x (l.getLast hne) := by
  intro l
  induction l with
  | nil => intro _ hne; exact absurd rfl hne
  | cons a l ih =>
      intro h hne x hx
      cases l with
      | nil =>
          rw [List.mem_singleton] at hx
          subst hx
          exact hrefl _
      | cons b l =>
          rw [List.getLast_cons (List.cons_ne_nil b l)]
          rcases List.mem_cons.mp hx with rfl | hx'
          · exact (List.pairwise_cons.mp h).1 _ (List.getLast_mem (List.cons_ne_nil b l))
          · exact ih (List.pairwise_cons.mp h).2 (List.cons_ne_nil b l) x hx'

theorem pairwise_head_rel {α : Type} {R : α → α → Prop} (hrefl : ∀ a, R a a) :
    ∀ {l : List α}, l.Pairwise R → ∀ (hne : l ≠ []), ∀ x ∈ l, R (l.head hne) x := by
  intro l
  induction l with
  | nil => intro _ hne; exact absurd rfl hne
  | cons a l _ =>
      intro h _ x hx
      rcases List.mem_cons.mp hx with rfl | hx'
      · exact hrefl _
      · exact (List.pairwise_cons.mp h).1 x hx'

theorem pairwise_lt_getLast_of_ne {l : List (ℤ × ℝ)}
    (h : l.Pairwise (fun u v : ℤ × ℝ => u.2 < v.2)) (hne : l ≠ []) :
    ∀ x ∈ l, x ≠ l.getLast hne → x.2 < (l.getLast hne).2 := by
  induction l with
  | nil => exact absurd rfl hne
  | cons a l ih =>
      intro x hx hxne
      cases l with
      | nil =>
          rw [List.mem_singleton] at hx
          subst hx
          exact absurd rfl hxne
      | cons b l =>
          rw [List.getLast_cons (List.cons_ne_nil b l)] at hxne ⊢
          rcases List.mem_cons.mp hx with rfl | hx'
          · exact (List.pairwise_cons.mp h).1 _ (List.getLast_mem (List.cons_ne_nil b l))
          · exact ih (List.pairwise_cons.mp h).2 (List.cons_ne_nil b l) x hx' hxne

/-- Strict increase of both components along a position table; this is the
well-formedness every built table enjoys. -/
def tableStrict (t : List (ℤ × ℝ)) : Prop :=
  List.Pairwise (fun u v : ℤ × ℝ => u.1 < v.1 ∧ u.2 < v.2) t

/-! ### The built table -/

theorem theTable_map_fst (books : List Book) (ms : List Milestone) (cy : ℤ) :
    (theTable books ms cy).map Prod.fst = uniqueYears books ms cy :=
  normalizedPositions_map_fst _ _ _

theorem theTable_ne_nil (books : List Book) (ms : List Milestone) (cy : ℤ) :
    theTable books ms cy ≠ [] := by
  intro h
  apply uniqueYears_ne_nil books ms cy
  rw [← theTable_map_fst books ms cy, h]
  rfl

theorem theTable_pairwise_fst_lt (books : List Book) (ms : List Milestone) (cy : ℤ) :
    List.Pairwise (fun u v : ℤ × ℝ => u.1 < v.1) (theTable books ms cy) := by
  have h := uniqueYears_sorted_lt books ms cy
  rw [← theTable_map_fst books ms cy] at h
  exact (List.pairwise_map).mp h

theorem theTable_strict (books : List Book) (ms : List Milestone) (cy : ℤ)
    (h2 : 2 ≤ (uniqueYears books ms cy).length) :
    tableStrict (theTable books ms cy) := by
  have h1 := theTable_pairwise_fst_lt books ms cy
  have h2' := normalizedPositions_pairwise_snd_lt (bookRanges books) (milestoneRanges ms)
    (uniqueYears_sorted_lt books ms cy) h2
  exact List.Pairwise.and h1 h2'

theorem theTable_strict_of_single (books : List Book) (ms : List Milestone) (cy : ℤ)
    (h1 : (uniqueYears books ms cy).length ≤ 1) :
    tableStrict (theTable books ms cy) := by
  have hlen : (theTable books ms cy).length ≤ 1 := by
    have := congrArg List.length (theTable_map_fst books ms cy)
    rw [List.length_map] at this
    omega
  match htab : theTable books ms cy, hlen with
  | [], _ => exact List.Pairwise.nil
  | [x], _ => exact List.pairwise_singleton _ _

theorem theTable_strict_always (books : List Book) (ms : List Milestone) (cy : ℤ) :
    tableStrict (theTable books ms cy) := by
  rcases le_or_lt (uniqueYears books ms cy).length 1 with h | h
  · exact theTable_strict_of_single books ms cy h
  · exact theTable_strict books ms cy h

theorem theTable_snd_bounds (books : List Book) (ms : List Milestone) (cy : ℤ) :
    ∀ x ∈ theTable books ms cy, marginStart ≤ x.2 ∧ x.2 ≤ marginStart + usableRange :=
  normalizedPositions_snd_bounds _ _ _

theorem theTable_snd_bounds01 (books : List Book) (ms : List Milestone) (cy : ℤ) :
    ∀ x ∈ theTable books ms cy, 0 ≤ x.2 ∧ x.2 ≤ 1 := by
  intro x hx
  have h := theTable_snd_bounds books ms cy x hx
  constructor
  · have : (0 : ℝ) < marginStart := by norm_num [marginStart]
    linarith [h.1]
  · have : marginStart + usableRange ≤ 1 := by norm_num [marginStart, usableRange, marginEnd]
    linarith [h.2]

theorem theTable_lookup (books : List Book) (ms : List Milestone) (cy : ℤ)
    {y : ℤ} {v : ℝ} (h : (y, v) ∈ theTable books ms cy) :
    (theTable books ms cy).lookup y = some v := by
  apply lookup_eq_some_of_mem _ h
  rw [theTable_map_fst]
  exact uniqueYears_nodup books ms cy

theorem theTable_mem_of_grid (books : List Book) (ms : List Milestone) (cy : ℤ)
    {y : ℤ} (h : y ∈ uniqueYears books ms cy) :
    ∃ v : ℝ, (y, v) ∈ theTable books ms cy := by
  rw [← theTable_map_fst books ms cy] at h
  rcases List.mem_map.mp h with ⟨x, hx, hfx⟩
  refine ⟨x.2, ?_⟩
  rw [← hfx]
  simpa using hx

/-! ### Interpolation scan lemmas -/

theorem interpolateScan_exact :
    ∀ (t : List (ℤ × ℝ)) (a : ℤ × ℝ) (dflt y : ℤ) (p : ℝ),
      List.Pairwise (fun u v : ℤ × ℝ => u.2 < v.2) (a :: t) →
      (y, p) ∈ t → a.2 < p →
      interpolateScan p (a :: t) dflt = y := by
  intro t
  induction t with
  | nil => intro a dflt y p _ hm _; simp at hm
  | cons b rest ih =>
      intro a dflt y p hpw hm ha
      obtain ⟨y1, p1⟩ := a
      obtain ⟨y2, p2⟩ := b
      have hp12 : p1 < p2 := (List.pairwise_cons.mp hpw).1 (y2, p2) (List.mem_cons_self _ _)
      by_cases hbr : p1 ≤ p ∧ p ≤ p2
      · have hyb : (y, p) = (y2, p2) := by
          rcases List.mem_cons.mp hm with h | h
          · exact h
          · exfalso
            have := (List.pairwise_cons.mp (List.pairwise_cons.mp hpw).2).1 (y, p) h
            simp only at this
            linarith [hbr.2]
        have hy : y = y2 := (Prod.mk.injEq _ _ _ _).mp hyb |>.1
        have hp : p = p2 := (Prod.mk.injEq _ _ _ _).mp hyb |>.2
        simp only [interpolateScan, if_pos hbr]
        have hne2 : p2 - p1 ≠ 0 := by linarith
        rw [hp, div_self hne2, one_mul]
        have harith : (y1 : ℝ) + ((y2 : ℝ) - (y1 : ℝ)) = (y2 : ℝ) := by ring
        rw [harith, jsRound_intCast]
        exact hy.symm
      · have hp2 : p2 < p := by
          rcases not_and_or.mp hbr with h | h
          · exact absurd (le_of_lt ha) h
          · exact lt_of_not_le h
        have hm' : (y, p) ∈ rest := by
          rcases List.mem_cons.mp hm with h | h
          · exfalso
            have : p = p2 := ((Prod.mk.injEq _ _ _ _).mp h).2
            linarith
          · exact h
        simp only [interpolateScan, if_neg hbr]
        exact ih (y2, p2) dflt y p (List.pairwise_cons.mp hpw).2 hm' hp2

theorem interpolateScan_range :
    ∀ (t : List (ℤ × ℝ)) (dflt : ℤ) (p : ℝ) (lo hi : ℤ),
      List.Chain' (fun u v : ℤ × ℝ => u.1 < v.1 ∧ u.2 < v.2) t →
      (∀ x ∈ t, lo ≤ x.1 ∧ x.1 ≤ hi) → lo ≤ dflt → dflt ≤ hi →
      lo ≤ interpolateScan p t dflt ∧ interpolateScan p t dflt ≤ hi := by
  intro t
  induction t with
  | nil => intro dflt p lo hi _ _ h1 h2; exact ⟨h1, h2⟩
  | cons a rest ih =>
      intro dflt p lo hi hch hmem h1 h2
      cases rest with
      | nil => exact ⟨h1, h2⟩
      | cons b rest' =>
          obtain ⟨y1, p1⟩ := a
          obtain ⟨y2, p2⟩ := b
          have hab := (List.chain'_cons.mp hch).1
          have hy12 : y1 < y2 := hab.1
          have hp12 : p1 < p2 := hab.2
          by_cases hbr : p1 ≤ p ∧ p ≤ p2
          · simp only [interpolateScan, if_pos hbr]
            set s := (p - p1) / (p2 - p1) with hs
            have hs0 : 0 ≤ s := div_nonneg (by linarith [hbr.1]) (by linarith)
            have hs1 : s ≤ 1 := (div_le_one (by linarith)).mpr (by linarith [hbr.2])
            have hylo : lo ≤ y1 := (hmem (y1, p1) (List.mem_cons_self _ _)).1
            have hyhi : y2 ≤ hi :=
              (hmem (y2, p2) (List.mem_cons_of_mem _ (List.mem_cons_self _ _))).2
            have hy12' : (0 : ℝ) ≤ (y2 : ℝ) - (y1 : ℝ) := by
              have : (y1 : ℝ) ≤ (y2 : ℝ) := by exact_mod_cast le_of_lt hy12
              linarith
            have hvlo : (y1 : ℝ) ≤ (y1 : ℝ) + s * ((y2 : ℝ) - (y1 : ℝ)) := by nlinarith
            have hvhi : (y1 : ℝ) + s * ((y2 : ℝ) - (y1 : ℝ)) ≤ (y2 : ℝ) := by nlinarith
            constructor
            · exact le_trans hylo (le_jsRound hvlo)
            · exact le_trans (jsRound_le hvhi) hyhi
          · simp only [interpolateScan, if_neg hbr]
            exact ih dflt p lo hi (List.chain'_cons.mp hch).2
              (fun x hx => hmem x (List.mem_cons_of_mem _ hx)) h1 h2

/-! ### Query-function lemmas over a well-formed table -/

theorem scrollToYearFn_mem (t : List (ℤ × ℝ)) (hstrict : tableStrict t)
    (hb : ∀ x ∈ t, 0 ≤ x.2 ∧ x.2 ≤ 1) {y : ℤ} {p : ℝ} (hm : (y, p) ∈ t) :
    scrollToYearFn t p = y := by
  have hsnd : List.Pairwise (fun u v : ℤ × ℝ => u.2 < v.2) t := hstrict.imp fun h => h.2
  match t, hm with
  | first :: rest, hm =>
      have hp01 := hb (y, p) hm
      have hclamp : max 0 (min 1 p) = p := by
        rw [min_eq_right hp01.2, max_eq_right hp01.1]
      simp only [scrollToYearFn, hclamp]
      set last := (first :: rest).getLast (List.cons_ne_nil first rest) with hlast
      by_cases h1 : p ≤ first.2
      · rw [if_pos h1]
        rcases List.mem_cons.mp hm with h | h
        · rw [← h]
        · exfalso
          have := (List.pairwise_cons.mp hsnd).1 (y, p) h
          simp only at this
          linarith
      · rw [if_neg h1]
        have hfp : first.2 < p := lt_of_not_le h1
        by_cases h2 : last.2 ≤ p
        · rw [if_pos h2]
          by_cases hyl : (y, p) = last
          · rw [← hyl]
          · exfalso
            have := pairwise_lt_getLast_of_ne hsnd (List.cons_ne_nil first rest) (y, p) hm hyl
            rw [← hlast] at this
            simp only at this
            linarith
        · rw [if_neg h2]
          have hm' : (y, p) ∈ rest := by
            rcases List.mem_cons.mp hm with h | h
            · exfalso
              have : p = first.2 := by rw [← h]
              linarith
            · exact h
          exact interpolateScan_exact rest first last.1 y p hsnd hm' hfp

theorem scrollToYearFn_range (t : List (ℤ × ℝ)) (hne : t ≠ []) (hstrict : tableStrict t)
    (p : ℝ) :
    (t.head hne).1 ≤ scrollToYearFn t p ∧ scrollToYearFn t p ≤ (t.getLast hne).1 := by
  have hfst : List.Pairwise (fun u v : ℤ × ℝ => u.1 ≤ v.1) t :=
    hstrict.imp fun h => le_of_lt h.1
  have hhead : ∀ x ∈ t, (t.head hne).1 ≤ x.1 :=
    fun x hx => @pairwise_head_rel (ℤ × ℝ) (fun u v => u.1 ≤ v.1)
      (fun a => le_refl a.1) t hfst hne x hx
  have hlastr : ∀ x ∈ t, x.1 ≤ (t.getLast hne).1 :=
    fun x hx => @pairwise_getLast_rel (ℤ × ℝ) (fun u v => u.1 ≤ v.1)
      (fun a => le_refl a.1) t hfst hne x hx
  match t, hne with
  | first :: rest, hne =>
      simp only [scrollToYearFn]
      set q := max 0 (min 1 p) with hq
      set last := (first :: rest).getLast (List.cons_ne_nil first rest) with hlast
      have hheadeq : (first :: rest).head hne = first := rfl
      by_cases h1 : q ≤ first.2
      · rw [if_pos h1]
        refine ⟨le_refl _, ?_⟩
        exact hlastr first (List.mem_cons_self _ _)
      · rw [if_neg h1]
        by_cases h2 : last.2 ≤ q
        · rw [if_pos h2]
          refine ⟨?_, le_refl _⟩
          exact hhead last (List.getLast_mem (List.cons_ne_nil first rest))
        · rw [if_neg h2]
          have hch : List.Chain' (fun u v : ℤ × ℝ => u.1 < v.1 ∧ u.2 < v.2) (first :: rest) :=
            hstrict.chain'
          refine interpolateScan_range (first :: rest) last.1 q first.1 last.1 hch ?_ ?_ ?_
          · intro x hx
            exact ⟨hhead x hx, hlastr x hx⟩
          · exact hhead last (List.getLast_mem (List.cons_ne_nil first rest))
          · exact le_refl _

/-! ### Relating the constructor to its components -/

theorem sortedEvents_ne_nil {books : List Book} {ms : List Milestone}
    (h : collectEvents books ms ≠ []) :
    List.insertionSort (fun a b => a.year ≤ b.year) (collectEvents books ms) ≠ [] := by
  intro hnil
  apply h
  have hperm := List.perm_insertionSort (fun a b => a.year ≤ b.year) (collectEvents books ms)
  rw [hnil] at hperm
  exact hperm.symm.eq_nil

theorem buildYearMapping_scrollToYear {books : List Book} {ms : List Milestone} {cy : ℤ}
    (h : collectEvents books ms ≠ []) :
    (buildYearMapping books ms cy).scrollToYear = scrollToYearFn (theTable books ms cy) := by
  obtain ⟨e, es, hsort⟩ := List.exists_cons_of_ne_nil (sortedEvents_ne_nil h)
  simp only [buildYearMapping, hsort]

theorem buildYearMapping_yearToScroll {books : List Book} {ms : List Milestone} {cy : ℤ}
    (h : collectEvents books ms ≠ []) :
    (buildYearMapping books ms cy).yearToScroll = yearToScrollFn (theTable books ms cy) := by
  obtain ⟨e, es, hsort⟩ := List.exists_cons_of_ne_nil (sortedEvents_ne_nil h)
  simp only [buildYearMapping, hsort]

theorem buildYearMapping_maxYear (cy : ℤ) {books : List Book} {ms : List Milestone}
    (h : collectEvents books ms ≠ []) :
    (buildYearMapping books ms cy).maxYear = cy := by
  obtain ⟨e, es, hsort⟩ := List.exists_cons_of_ne_nil (sortedEvents_ne_nil h)
  simp only [buildYearMapping, hsort]

theorem buildYearMapping_minYear_spec (cy : ℤ) {books : List Book} {ms : List Milestone}
    (h : collectEvents books ms ≠ []) :
    (∃ ev ∈ collectEvents books ms, (buildYearMapping books ms cy).minYear = ev.year) ∧
      ∀ ev ∈ collectEvents books ms, (buildYearMapping books ms cy).minYear ≤ ev.year := by
  obtain ⟨e, es, hsort⟩ := List.exists_cons_of_ne_nil (sortedEvents_ne_nil h)
  have hperm := List.perm_insertionSort (fun a b => a.year ≤ b.year) (collectEvents books ms)
  haveI : IsTotal Event (fun a b => a.year ≤ b.year) := ⟨fun a b => le_total a.year b.year⟩
  haveI : IsTrans Event (fun a b => a.year ≤ b.year) :=
    ⟨fun _ _ _ hab hbc => le_trans hab hbc⟩
  have hsorted : (e :: es).Sorted (fun a b => a.year ≤ b.year) := by
    rw [← hsort]
    exact List.sorted_insertionSort _ _
  have hmin : (buildYearMapping books ms cy).minYear = e.year := by
    simp only [buildYearMapping, hsort]
  constructor
  · refine ⟨e, ?_, hmin⟩
    have : e ∈ e :: es := List.mem_cons_self _ _
    rw [← hsort] at this
    exact hperm.mem_iff.mp this
  · intro ev hev
    rw [hmin]
    have hev' : ev ∈ e :: es := by
      rw [← hsort]
      exact (hperm.mem_iff).mpr hev
    rcases List.mem_cons.mp hev' with rfl | hev''
    · exact le_refl _
    · exact (List.pairwise_cons.mp hsorted).1 ev hev''

/-! ### Heads and last elements of sorted lists with extremal members -/

theorem sorted_head_eq_of_least {l : List ℤ} (hs : l.Sorted (· ≤ ·)) (hne : l ≠ [])
    {m : ℤ} (hm : m ∈ l) (hleast : ∀ y ∈ l, m ≤ y) : l.head hne = m :=
  le_antisymm
    (@pairwise_head_rel ℤ (· ≤ ·) (fun a => le_refl a) l hs hne m hm)
    (hleast _ (List.head_mem hne))

theorem sorted_getLast_eq_of_greatest {l : List ℤ} (hs : l.Sorted (· ≤ ·)) (hne : l ≠ [])
    {m : ℤ} (hm : m ∈ l) (hgreatest : ∀ y ∈ l, y ≤ m) : l.getLast hne = m :=
  le_antisymm
    (hgreatest _ (List.getLast_mem hne))
    (@pairwise_getLast_rel ℤ (· ≤ ·) (fun a => le_refl a) l hs hne m hm)

theorem yearToScrollFn_lookup {t : List (ℤ × ℝ)} {y : ℤ} {v : ℝ}
    (h : t.lookup y = some v) : yearToScrollFn t y = v := by
  unfold yearToScrollFn
  rw [h]

/-! ### Sample inputs used by the witnesses -/

def sampleBook : Book := ⟨some (-1000, -900), none⟩

def sampleBooks : List Book := [sampleBook]

/-! ### Claim C1 -/

/-- C1: for every mapping built by `buildYearMapping` from a non-empty
event list, `yearToScroll` is monotone on grid years (`y1 < y2` implies
`yearToScroll y1 ≤ yearToScroll y2`), and the underlying position table is
strictly increasing with year, so inversion is well-defined. -/
theorem c1_yearToScroll_monotone_table_strict
    (books : List Book) (ms : List Milestone) (cy : ℤ)
    (hne : collectEvents books ms ≠ []) :
    List.Pairwise (fun u v : ℤ × ℝ => u.1 < v.1 ∧ u.2 < v.2) (theTable books ms cy) ∧
      ∀ y1 y2 : ℤ, y1 ∈ uniqueYears books ms cy → y2 ∈ uniqueYears books ms cy →
        y1 < y2 →
        (buildYearMapping books ms cy).yearToScroll y1 ≤
          (buildYearMapping books ms cy).yearToScroll y2 := by
  have hstrict := theTable_strict_always books ms cy
  refine ⟨hstrict, ?_⟩
  intro y1 y2 h1 h2 hlt
  obtain ⟨v1, hv1⟩ := theTable_mem_of_grid books ms cy h1
  obtain ⟨v2, hv2⟩ := theTable_mem_of_grid books ms cy h2
  rw [buildYearMapping_yearToScroll hne,
    yearToScrollFn_lookup (theTable_lookup books ms cy hv1),
    yearToScrollFn_lookup (theTable_lookup books ms cy hv2)]
  have hsym : Symmetric (fun u v : ℤ × ℝ =>
      (u.1 < v.1 ∧ u.2 < v.2) ∨ (v.1 < u.1 ∧ v.2 < u.2)) := by
    intro u v h
    tauto
  have hpw' : List.Pairwise (fun u v : ℤ × ℝ =>
      (u.1 < v.1 ∧ u.2 < v.2) ∨ (v.1 < u.1 ∧ v.2 < u.2)) (theTable books ms cy) :=
    hstrict.imp fun h => Or.inl h
  have hne12 : ((y1, v1) : ℤ × ℝ) ≠ (y2, v2) := by
    intro h
    rw [Prod.mk.injEq] at h
    omega
  rcases List.Pairwise.forall hsym hpw' hv1 hv2 hne12 with h | h
  · exact le_of_lt h.2
  · exact absurd h.1 (by omega)

/-- C1 witness: the hypothesis holds for a single dated book, and the
theorem applies. -/
theorem c1_witness :
    (collectEvents sampleBooks [] ≠ []) ∧
      (List.Pairwise (fun u v : ℤ × ℝ => u.1 < v.1 ∧ u.2 < v.2)
          (theTable sampleBooks [] 2026) ∧
        ∀ y1 y2 : ℤ, y1 ∈ uniqueYears sampleBooks [] 2026 →
          y2 ∈ uniqueYears sampleBooks [] 2026 → y1 < y2 →
          (buildYearMapping sampleBooks [] 2026).yearToScroll y1 ≤
            (buildYearMapping sampleBooks [] 2026).yearToScroll y2) :=
  ⟨by decide, c1_yearToScroll_monotone_table_strict sampleBooks [] 2026 (by decide)⟩

/-! ### Claim C2 -/

/-- C2: for every grid year `y` of a mapping built from a non-empty event
list, `scrollToYear (yearToScroll y)` deviates from `y` by at most 1 (in
fact the round trip is exact). -/
theorem c2_roundtrip (books : List Book) (ms : List Milestone) (cy : ℤ)
    (hne : collectEvents books ms ≠ []) :
    ∀ y ∈ uniqueYears books ms cy,
      |(buildYearMapping books ms cy).scrollToYear
          ((buildYearMapping books ms cy).yearToScroll y) - y| ≤ 1 := by
  intro y hy
  obtain ⟨v, hv⟩ := theTable_mem_of_grid books ms cy hy
  rw [buildYearMapping_yearToScroll hne, buildYearMapping_scrollToYear hne,
    yearToScrollFn_lookup (theTable_lookup books ms cy hv)]
  rw [scrollToYearFn_mem (theTable books ms cy) (theTable_strict_always books ms cy)
    (theTable_snd_bounds01 books ms cy) hv]
  simp

/-- C2 witness: concrete instance of the round-trip theorem. -/
theorem c2_witness :
    (collectEvents sampleBooks [] ≠ []) ∧
      ∀ y ∈ uniqueYears sampleBooks [] 2026,
        |(buildYearMapping sampleBooks [] 2026).scrollToYear
            ((buildYearMapping sampleBooks [] 2026).yearToScroll y) - y| ≤ 1 :=
  ⟨by decide, c2_roundtrip sampleBooks [] 2026 (by decide)⟩

/-! ### First and last grid years, as seen through the table -/

theorem uniqueYears_headD (books : List Book) (ms : List Milestone) (cy : ℤ) :
    (uniqueYears books ms cy).headD 0 =
      ((theTable books ms cy).head (theTable_ne_nil books ms cy)).1 := by
  have hmap := (theTable_map_fst books ms cy).symm
  match htab : theTable books ms cy, theTable_ne_nil books ms cy with
  | first :: rest, _ =>
      rw [htab] at hmap
      rw [hmap]
      rfl

theorem uniqueYears_getLastD (books : List Book) (ms : List Milestone) (cy : ℤ) :
    (uniqueYears books ms cy).getLastD 0 =
      ((theTable books ms cy).getLast (theTable_ne_nil books ms cy)).1 := by
  have hmap := (theTable_map_fst books ms cy).symm
  have hne := theTable_ne_nil books ms cy
  rw [List.getLastD_eq_getLast?, hmap, List.getLast?_map,
    List.getLast?_eq_getLast _ hne]
  rfl

/-! ### Claim C10 -/

/-- C10 (implicit): for every real input `p` to `scrollToYear` of a
mapping built from a non-empty event list — not only `p ∈ [0,1]` — the
result lies between the first and the last grid year: interpolation with
rounding never leaves the grid's extreme years. -/
theorem c10_scrollToYear_within_grid (books : List Book) (ms : List Milestone) (cy : ℤ)
    (hne : collectEvents books ms ≠ []) :
    ∀ p : ℝ,
      (uniqueYears books ms cy).headD 0 ≤ (buildYearMapping books ms cy).scrollToYear p ∧
        (buildYearMapping books ms cy).scrollToYear p ≤
          (uniqueYears books ms cy).getLastD 0 := by
  intro p
  rw [buildYearMapping_scrollToYear hne, uniqueYears_headD, uniqueYears_getLastD]
  exact scrollToYearFn_range (theTable books ms cy) (theTable_ne_nil books ms cy)
    (theTable_strict_always books ms cy) p

/-- C10 witness: concrete instance (a scroll position far outside
`[0, 1]` still lands inside the grid range). -/
theorem c10_witness :
    (collectEvents sampleBooks [] ≠ []) ∧
      ((uniqueYears sampleBooks [] 2026).headD 0 ≤
          (buildYearMapping sampleBooks [] 2026).scrollToYear 7 ∧
        (buildYearMapping sampleBooks [] 2026).scrollToYear 7 ≤
          (uniqueYears sampleBooks [] 2026).getLastD 0) :=
  ⟨by decide, c10_scrollToYear_within_grid sampleBooks [] 2026 (by decide) 7⟩

/-! ### Claim C5 -/

/-- C5: with an empty event list (zero dated books, zero milestones)
`buildYearMapping` returns the fixed linear identity fallback with
`minYear = -4000`, `maxYear = 100`, and `scrollToYear 0.5` is the
midpoint year −1950 of that default range. -/
theorem c5_empty_fallback (books : List Book) (ms : List Milestone) (cy : ℤ)
    (h : collectEvents books ms = []) :
    (buildYearMapping books ms cy).minYear = -4000 ∧
      (buildYearMapping books ms cy).maxYear = 100 ∧
      (buildYearMapping books ms cy).scrollToYear 0.5 = -1950 := by
  have hsort : List.insertionSort (fun a b => a.year ≤ b.year)
      (collectEvents books ms) = [] := by
    rw [h]
    rfl
  refine ⟨?_, ?_, ?_⟩
  · simp only [buildYearMapping, hsort]
  · simp only [buildYearMapping, hsort]
  · simp only [buildYearMapping, hsort]
    show jsRound (-4000 + 0.5 * 4100) = -1950
    unfold jsRound
    have harith : (-4000 : ℝ) + 0.5 * 4100 + 1 / 2 = -1949.5 := by norm_num
    rw [harith]
    norm_num

/-- C5 witness: the empty input satisfies the hypothesis. -/
theorem c5_witness :
    (collectEvents [] [] = []) ∧
      ((buildYearMapping [] [] 2026).minYear = -4000 ∧
        (buildYearMapping [] [] 2026).maxYear = 100 ∧
        (buildYearMapping [] [] 2026).scrollToYear 0.5 = -1950) :=
  ⟨rfl, c5_empty_fallback [] [] 2026 rfl⟩

/-! ### Claim C6 -/

/-- C6: for a segment whose midpoint has at least one active book
interval, the weight is `sqrt |year - prevYear|` times
`densityMultiplier = 4 + 1.5 * activeCount`, additionally times
`durationBonus = max 1 (4 - minDuration / 33)` exactly when the shortest
active book's duration is under 100 years. -/
theorem c6_density_weight (br mr : List Range) (prevYear year d : ℤ)
    (hc : 0 < (getActiveBooksInfo br
      (jsRound (((prevYear : ℝ) + (year : ℝ)) / 2))).count)
    (hd : (getActiveBooksInfo br
      (jsRound (((prevYear : ℝ) + (year : ℝ)) / 2))).minDuration = some d) :
    segmentWeight br mr prevYear year =
      Real.sqrt |((year - prevYear : ℤ) : ℝ)| *
        ((4 + ((getActiveBooksInfo br
            (jsRound (((prevYear : ℝ) + (year : ℝ)) / 2))).count : ℝ) * 1.5) *
          (if d < 100 then max 1 (4 - (d : ℝ) / 33) else 1)) := by
  unfold segmentWeight densityMultiplier
  dsimp only
  rw [if_pos hc, hd]
  dsimp only
  by_cases h100 : d < 100
  · rw [if_pos h100, if_pos h100]
  · rw [if_neg h100, if_neg h100]
    ring

/-- C6 witness: a 50-year book active at the midpoint of the segment
(0, 10); the duration bonus branch is taken since 50 < 100. -/
theorem c6_witness :
    (0 < (getActiveBooksInfo [(⟨0, 50⟩ : Range)]
        (jsRound ((((0 : ℤ) : ℝ) + ((10 : ℤ) : ℝ)) / 2))).count) ∧
      ((getActiveBooksInfo [(⟨0, 50⟩ : Range)]
        (jsRound ((((0 : ℤ) : ℝ) + ((10 : ℤ) : ℝ)) / 2))).minDuration = some 50) ∧
      segmentWeight [(⟨0, 50⟩ : Range)] [] 0 10 =
        Real.sqrt |((10 - 0 : ℤ) : ℝ)| *
          ((4 + ((getActiveBooksInfo [(⟨0, 50⟩ : Range)]
              (jsRound ((((0 : ℤ) : ℝ) + ((10 : ℤ) : ℝ)) / 2))).count : ℝ) * 1.5) *
            (if (50 : ℤ) < 100 then max 1 (4 - ((50 : ℤ) : ℝ) / 33) else 1)) := by
  have hmid : jsRound ((((0 : ℤ) : ℝ) + ((10 : ℤ) : ℝ)) / 2) = 5 := by
    unfold jsRound
    norm_num
  have h1 : 0 < (getActiveBooksInfo [(⟨0, 50⟩ : Range)]
      (jsRound ((((0 : ℤ) : ℝ) + ((10 : ℤ) : ℝ)) / 2))).count := by
    rw [hmid]
    decide
  have h2 : (getActiveBooksInfo [(⟨0, 50⟩ : Range)]
      (jsRound ((((0 : ℤ) : ℝ) + ((10 : ℤ) : ℝ)) / 2))).minDuration = some 50 := by
    rw [hmid]
    decide
  exact ⟨h1, h2, c6_density_weight [(⟨0, 50⟩ : Range)] [] 0 10 50 h1 h2⟩

/-! ### Claim C7 -/

/-- C7: book density and milestone emphasis are mutually exclusive — on a
segment whose midpoint has both an active book and an active milestone
display-range, the weight is the base times the book density multiplier
only, identical to what it would be with no milestones at all; the
milestone multiplier `40 + 20 * count` is never applied when a book is
active. -/
theorem c7_book_wins_over_milestone (br mr : List Range) (prevYear year : ℤ)
    (hc : 0 < (getActiveBooksInfo br
      (jsRound (((prevYear : ℝ) + (year : ℝ)) / 2))).count)
    (_hm : 0 < (getActiveMilestonesInfo mr
      (jsRound (((prevYear : ℝ) + (year : ℝ)) / 2))).count) :
    segmentWeight br mr prevYear year =
      Real.sqrt |((year - prevYear : ℤ) : ℝ)| *
        densityMultiplier br (jsRound (((prevYear : ℝ) + (year : ℝ)) / 2)) ∧
      segmentWeight br mr prevYear year = segmentWeight br [] prevYear year := by
  constructor
  · unfold segmentWeight
    dsimp only
    rw [if_pos hc]
  · unfold segmentWeight
    dsimp only
    rw [if_pos hc, if_pos hc]

/-- C7 witness: a book and a milestone both active at the midpoint of the
segment (0, 10). -/
theorem c7_witness :
    (0 < (getActiveBooksInfo [(⟨0, 200⟩ : Range)]
        (jsRound ((((0 : ℤ) : ℝ) + ((10 : ℤ) : ℝ)) / 2))).count) ∧
      (0 < (getActiveMilestonesInfo [(⟨0, 300⟩ : Range)]
        (jsRound ((((0 : ℤ) : ℝ) + ((10 : ℤ) : ℝ)) / 2))).count) ∧
      (segmentWeight [(⟨0, 200⟩ : Range)] [(⟨0, 300⟩ : Range)] 0 10 =
        Real.sqrt |((10 - 0 : ℤ) : ℝ)| *
          densityMultiplier [(⟨0, 200⟩ : Range)]
            (jsRound ((((0 : ℤ) : ℝ) + ((10 : ℤ) : ℝ)) / 2)) ∧
        segmentWeight [(⟨0, 200⟩ : Range)] [(⟨0, 300⟩ : Range)] 0 10 =
          segmentWeight [(⟨0, 200⟩ : Range)] [] 0 10) := by
  have hmid : jsRound ((((0 : ℤ) : ℝ) + ((10 : ℤ) : ℝ)) / 2) = 5 := by
    unfold jsRound
    norm_num
  have h1 : 0 < (getActiveBooksInfo [(⟨0, 200⟩ : Range)]
      (jsRound ((((0 : ℤ) : ℝ) + ((10 : ℤ) : ℝ)) / 2))).count := by
    rw [hmid]
    decide
  have h2 : 0 < (getActiveMilestonesInfo [(⟨0, 300⟩ : Range)]
      (jsRound ((((0 : ℤ) : ℝ) + ((10 : ℤ) : ℝ)) / 2))).count := by
    rw [hmid]
    decide
  exact ⟨h1, h2, c7_book_wins_over_milestone [(⟨0, 200⟩ : Range)]
    [(⟨0, 300⟩ : Range)] 0 10 h1 h2⟩

/-! ### Heads and last elements under list equations -/

theorem head_eq_of_eq_cons {α : Type} {t : List α} {x : α} {rest : List α}
    (h : t = x :: rest) (hne : t ≠ []) : t.head hne = x := by
  subst h
  rfl

theorem headD_eq_head {α : Type} {l : List α} (hne : l ≠ []) (d : α) :
    l.headD d = l.head hne := by
  cases l with
  | nil => exact absurd rfl hne
  | cons a l => rfl

theorem getLastD_eq_getLast {α : Type} {l : List α} (hne : l ≠ []) (d : α) :
    l.getLastD d = l.getLast hne := by
  rw [List.getLastD_eq_getLast?, List.getLast?_eq_getLast _ hne]
  rfl

theorem theTable_head_fst (books : List Book) (ms : List Milestone) (cy : ℤ) :
    ((theTable books ms cy).head (theTable_ne_nil books ms cy)).1 =
      (uniqueYears books ms cy).head (uniqueYears_ne_nil books ms cy) := by
  rw [← headD_eq_head (uniqueYears_ne_nil books ms cy) 0, uniqueYears_headD]

theorem theTable_getLast_fst (books : List Book) (ms : List Milestone) (cy : ℤ) :
    ((theTable books ms cy).getLast (theTable_ne_nil books ms cy)).1 =
      (uniqueYears books ms cy).getLast (uniqueYears_ne_nil books ms cy) := by
  rw [← getLastD_eq_getLast (uniqueYears_ne_nil books ms cy) 0, uniqueYears_getLastD]

/-! ### Boundary behavior of the interpolator -/

theorem scrollToYearFn_zero (t : List (ℤ × ℝ)) (hne : t ≠ [])
    (hb0 : 0 ≤ (t.head hne).2) : scrollToYearFn t 0 = (t.head hne).1 := by
  match t, hne, hb0 with
  | first :: rest, _, hb0 =>
      have hb0' : 0 ≤ first.2 := hb0
      simp only [scrollToYearFn]
      have hclamp : max 0 (min 1 (0 : ℝ)) = 0 := by norm_num
      rw [hclamp, if_pos hb0']
      rfl

theorem scrollToYearFn_one (t : List (ℤ × ℝ)) (hne : t ≠ [])
    (hfirst : (t.head hne).2 < 1) (hlast : (t.getLast hne).2 ≤ 1) :
    scrollToYearFn t 1 = (t.getLast hne).1 := by
  match t, hne, hfirst, hlast with
  | first :: rest, hne, hfirst, hlast =>
      have hfirst' : ¬(1 ≤ first.2) := not_le.mpr hfirst
      have hlast' : ((first :: rest).getLast (List.cons_ne_nil first rest)).2 ≤ 1 := hlast
      simp only [scrollToYearFn]
      have hclamp : max 0 (min 1 (1 : ℝ)) = 1 := by norm_num
      rw [hclamp, if_neg hfirst', if_pos hlast']

/-! ### The grid's extremes under an in-range hypothesis -/

theorem uniqueYears_head_eq_minYear (books : List Book) (ms : List Milestone) (cy : ℤ)
    (hne : collectEvents books ms ≠ [])
    (hle : ∀ e ∈ collectEvents books ms, e.year ≤ cy) :
    (uniqueYears books ms cy).head (uniqueYears_ne_nil books ms cy) =
      (buildYearMapping books ms cy).minYear := by
  obtain ⟨⟨ev, hev, hevy⟩, hminle⟩ := buildYearMapping_minYear_spec cy hne
  have hmem : (buildYearMapping books ms cy).minYear ∈ uniqueYears books ms cy :=
    mem_uniqueYears.mpr (Or.inl (List.mem_map.mpr ⟨ev, hev, hevy.symm⟩))
  have hleast : ∀ y ∈ uniqueYears books ms cy, (buildYearMapping books ms cy).minYear ≤ y := by
    intro y hy
    rcases mem_uniqueYears.mp hy with hy' | rfl
    · rcases List.mem_map.mp hy' with ⟨e, he, rfl⟩
      exact hminle e he
    · rw [hevy]
      exact hle ev hev
  exact sorted_head_eq_of_least (uniqueYears_sorted_le books ms cy) _ hmem hleast

theorem uniqueYears_getLast_eq_cy (books : List Book) (ms : List Milestone) (cy : ℤ)
    (hle : ∀ e ∈ collectEvents books ms, e.year ≤ cy) :
    (uniqueYears books ms cy).getLast (uniqueYears_ne_nil books ms cy) = cy := by
  have hgr : ∀ y ∈ uniqueYears books ms cy, y ≤ cy := by
    intro y hy
    rcases mem_uniqueYears.mp hy with hy' | rfl
    · rcases List.mem_map.mp hy' with ⟨e, he, rfl⟩
      exact hle e he
    · exact le_refl _
  exact sorted_getLast_eq_of_greatest (uniqueYears_sorted_le books ms cy) _
    (currentYear_mem_uniqueYears books ms cy) hgr

/-! ### Claim C3 -/

/-- C3 counterexample: a single book dated 3000–3100, after the current
year 2026.  The grid gains the current year 2026 as its smallest entry,
so `scrollToYear 0` returns 2026 while `minYear` is 3000: the claim's
`scrollToYear 0 = minYear` fails as stated. -/
def c3Books : List Book := [⟨some (3000, 3100), none⟩]

theorem c3_counterexample :
    (collectEvents c3Books [] ≠ []) ∧
      (buildYearMapping c3Books [] 2026).minYear = 3000 ∧
      (buildYearMapping c3Books [] 2026).scrollToYear 0 = 2026 ∧
      (buildYearMapping c3Books [] 2026).scrollToYear 0 ≠
        (buildYearMapping c3Books [] 2026).minYear := by
  have hne : collectEvents c3Books [] ≠ [] := by decide
  have hsort : List.insertionSort (fun a b => a.year ≤ b.year) (collectEvents c3Books [])
      = [⟨3000, .bookStart⟩, ⟨3100, .bookEnd⟩] := by decide
  have hmin : (buildYearMapping c3Books [] 2026).minYear = 3000 := by
    simp only [buildYearMapping, hsort]
  have hzero : (buildYearMapping c3Books [] 2026).scrollToYear 0 = 2026 := by
    rw [buildYearMapping_scrollToYear hne]
    have hth := theTable_head_fst c3Books [] 2026
    have hgrid : uniqueYears c3Books [] 2026 = [2026, 3000, 3100] := by decide
    have hgh : (uniqueYears c3Books [] 2026).head (uniqueYears_ne_nil c3Books [] 2026)
        = 2026 := head_eq_of_eq_cons hgrid _
    rw [scrollToYearFn_zero (theTable c3Books [] 2026) (theTable_ne_nil c3Books [] 2026)
      (theTable_snd_bounds01 c3Books [] 2026 _
        (List.head_mem (theTable_ne_nil c3Books [] 2026))).1]
    rw [hth, hgh]
  refine ⟨hne, hmin, hzero, ?_⟩
  rw [hmin, hzero]
  decide

/-- C3, amended with the in-range hypothesis the counterexample forces:
for a mapping built from a non-empty event list all of whose event years
are at most the current year, `scrollToYear 0 = minYear`,
`scrollToYear 1 = maxYear`, and the table's first and last entries are
exactly `(minYear, yearToScroll minYear)` and
`(maxYear, yearToScroll maxYear)` — i.e. `yearToScroll` at the two
boundary years yields the table's first and last normalized positions. -/
theorem c3_boundary_exactness (books : List Book) (ms : List Milestone) (cy : ℤ)
    (hne : collectEvents books ms ≠ [])
    (hle : ∀ e ∈ collectEvents books ms, e.year ≤ cy) :
    (buildYearMapping books ms cy).scrollToYear 0 = (buildYearMapping books ms cy).minYear ∧
      (buildYearMapping books ms cy).scrollToYear 1 = (buildYearMapping books ms cy).maxYear ∧
      (theTable books ms cy).head? = some ((buildYearMapping books ms cy).minYear,
        (buildYearMapping books ms cy).yearToScroll ((buildYearMapping books ms cy).minYear)) ∧
      (theTable books ms cy).getLast? = some ((buildYearMapping books ms cy).maxYear,
        (buildYearMapping books ms cy).yearToScroll ((buildYearMapping books ms cy).maxYear)) := by
  have htne := theTable_ne_nil books ms cy
  have hheadfst : ((theTable books ms cy).head htne).1 = (buildYearMapping books ms cy).minYear := by
    rw [theTable_head_fst, uniqueYears_head_eq_minYear books ms cy hne hle]
  have hlastfst : ((theTable books ms cy).getLast htne).1 = (buildYearMapping books ms cy).maxYear := by
    rw [theTable_getLast_fst, uniqueYears_getLast_eq_cy books ms cy hle,
      buildYearMapping_maxYear cy hne]
  have hheadmem := List.head_mem htne
  have hlastmem := List.getLast_mem htne
  have hheadpair : ((buildYearMapping books ms cy).minYear,
      ((theTable books ms cy).head htne).2) ∈ theTable books ms cy := by
    rw [← hheadfst, Prod.mk.eta]
    exact hheadmem
  have hlastpair : ((buildYearMapping books ms cy).maxYear,
      ((theTable books ms cy).getLast htne).2) ∈ theTable books ms cy := by
    rw [← hlastfst, Prod.mk.eta]
    exact hlastmem
  have hyhead : (buildYearMapping books ms cy).yearToScroll
      ((buildYearMapping books ms cy).minYear) = ((theTable books ms cy).head htne).2 := by
    rw [buildYearMapping_yearToScroll hne]
    exact yearToScrollFn_lookup (theTable_lookup books ms cy hheadpair)
  have hylast : (buildYearMapping books ms cy).yearToScroll
      ((buildYearMapping books ms cy).maxYear) = ((theTable books ms cy).getLast htne).2 := by
    rw [buildYearMapping_yearToScroll hne]
    exact yearToScrollFn_lookup (theTable_lookup books ms cy hlastpair)
  refine ⟨?_, ?_, ?_, ?_⟩
  · rw [buildYearMapping_scrollToYear hne,
      scrollToYearFn_zero (theTable books ms cy) htne
        (theTable_snd_bounds01 books ms cy _ hheadmem).1, hheadfst]
  · have hfirstlt : ((theTable books ms cy).head htne).2 < 1 := by
      have h := (theTable_snd_bounds books ms cy _ hheadmem).2
      have : marginStart + usableRange < 1 := by
        norm_num [marginStart, marginEnd, usableRange]
      linarith
    rw [buildYearMapping_scrollToYear hne,
      scrollToYearFn_one (theTable books ms cy) htne hfirstlt
        (theTable_snd_bounds01 books ms cy _ hlastmem).2, hlastfst]
  · have hpair : ((buildYearMapping books ms cy).minYear,
        ((theTable books ms cy).head htne).2) = (theTable books ms cy).head htne := by
      rw [← hheadfst]
    rw [List.head?_eq_head htne, hyhead, hpair]
  · have hpair : ((buildYearMapping books ms cy).maxYear,
        ((theTable books ms cy).getLast htne).2) = (theTable books ms cy).getLast htne := by
      rw [← hlastfst]
    rw [List.getLast?_eq_getLast _ htne, hylast, hpair]

/-- C3 witness: the amended boundary-exactness theorem applied to a
single dated book lying before the current year. -/
theorem c3_witness :
    (collectEvents sampleBooks [] ≠ []) ∧
      (∀ e ∈ collectEvents sampleBooks [], e.year ≤ 2026) ∧
      ((buildYearMapping sampleBooks [] 2026).scrollToYear 0 =
          (buildYearMapping sampleBooks [] 2026).minYear ∧
        (buildYearMapping sampleBooks [] 2026).scrollToYear 1 =
          (buildYearMapping sampleBooks [] 2026).maxYear ∧
        (theTable sampleBooks [] 2026).head? =
          some ((buildYearMapping sampleBooks [] 2026).minYear,
            (buildYearMapping sampleBooks [] 2026).yearToScroll
              ((buildYearMapping sampleBooks [] 2026).minYear)) ∧
        (theTable sampleBooks [] 2026).getLast? =
          some ((buildYearMapping sampleBooks [] 2026).maxYear,
            (buildYearMapping sampleBooks [] 2026).yearToScroll
              ((buildYearMapping sampleBooks [] 2026).maxYear))) :=
  ⟨by decide, by decide,
    c3_boundary_exactness sampleBooks [] 2026 (by decide) (by decide)⟩

/-! ### Clamping behavior -/

theorem scrollToYearFn_nonpos (t : List (ℤ × ℝ)) (hne : t ≠ [])
    (hb0 : 0 ≤ (t.head hne).2) {p : ℝ} (hp : p ≤ 0) :
    scrollToYearFn t p = (t.head hne).1 := by
  match t, hne, hb0 with
  | first :: rest, _, hb0 =>
      have hb0' : 0 ≤ first.2 := hb0
      simp only [scrollToYearFn]
      have hclamp : max 0 (min 1 p) = 0 := by
        rw [min_eq_right (hp.trans zero_le_one), max_eq_left hp]
      rw [hclamp, if_pos hb0']
      rfl

theorem scrollToYearFn_ge_one (t : List (ℤ × ℝ)) (hne : t ≠ [])
    (hfirst : (t.head hne).2 < 1) (hlast : (t.getLast hne).2 ≤ 1) {p : ℝ} (hp : 1 ≤ p) :
    scrollToYearFn t p = (t.getLast hne).1 := by
  match t, hne, hfirst, hlast with
  | first :: rest, hne, hfirst, hlast =>
      have hfirst' : ¬((1 : ℝ) ≤ first.2) := not_le.mpr hfirst
      have hlast' : ((first :: rest).getLast (List.cons_ne_nil first rest)).2 ≤ 1 := hlast
      simp only [scrollToYearFn]
      have hclamp : max 0 (min 1 p) = 1 := by
        rw [min_eq_left hp]
        norm_num
      rw [hclamp, if_neg hfirst', if_pos hlast']

theorem yearToScrollFn_le_first (t : List (ℤ × ℝ)) (hne : t ≠ []) {y : ℤ}
    (hnotin : t.lookup y = none) (hy : y ≤ (t.head hne).1) :
    yearToScrollFn t y = (t.head hne).2 := by
  match t, hne, hy with
  | first :: rest, _, hy =>
      have hy' : y ≤ first.1 := hy
      unfold yearToScrollFn
      rw [hnotin]
      dsimp only
      rw [if_pos hy']
      rfl

theorem yearToScrollFn_ge_last (t : List (ℤ × ℝ)) (hne : t ≠ [])
    (hstrict : tableStrict t) {y : ℤ}
    (hnotin : t.lookup y = none) (hy : (t.getLast hne).1 ≤ y) :
    yearToScrollFn t y = (t.getLast hne).2 := by
  match t, hne, hy with
  | first :: rest, hne, hy =>
      unfold yearToScrollFn
      rw [hnotin]
      dsimp only
      by_cases h1 : y ≤ first.1
      · rw [if_pos h1]
        cases rest with
        | nil => rfl
        | cons b rest' =>
            exfalso
            have hlt : first.1 < ((first :: b :: rest').getLast
                (List.cons_ne_nil first (b :: rest'))).1 := by
              have hmem : (first :: b :: rest').getLast
                  (List.cons_ne_nil first (b :: rest')) ∈ b :: rest' := by
                rw [List.getLast_cons (List.cons_ne_nil b rest')]
                exact List.getLast_mem (List.cons_ne_nil b rest')
              exact ((List.pairwise_cons.mp hstrict).1 _ hmem).1
            have := le_trans hy h1
            omega
      · rw [if_neg h1]
        have hy' : ((first :: rest).getLast (List.cons_ne_nil first rest)).1 ≤ y := hy
        rw [if_pos hy']

/-- The grid never drops below `minYear` when every event year is at most
the current year. -/
theorem minYear_le_mem_uniqueYears (books : List Book) (ms : List Milestone) (cy : ℤ)
    (hne : collectEvents books ms ≠ [])
    (hle : ∀ e ∈ collectEvents books ms, e.year ≤ cy) :
    ∀ y ∈ uniqueYears books ms cy, (buildYearMapping books ms cy).minYear ≤ y := by
  obtain ⟨⟨ev, hev, hevy⟩, hminle⟩ := buildYearMapping_minYear_spec cy hne
  intro y hy
  rcases mem_uniqueYears.mp hy with hy' | rfl
  · rcases List.mem_map.mp hy' with ⟨e, he, rfl⟩
    exact hminle e he
  · rw [hevy]
    exact hle ev hev

theorem mem_uniqueYears_le_cy (books : List Book) (ms : List Milestone) (cy : ℤ)
    (hle : ∀ e ∈ collectEvents books ms, e.year ≤ cy) :
    ∀ y ∈ uniqueYears books ms cy, y ≤ cy := by
  intro y hy
  rcases mem_uniqueYears.mp hy with hy' | rfl
  · rcases List.mem_map.mp hy' with ⟨e, he, rfl⟩
    exact hle e he
  · exact le_refl _

/-! ### Claim C4 -/

/-- C4 counterexample: the empty-input fallback does not clamp at all —
`scrollToYear (-1)` extrapolates linearly to year −8100, far outside the
−4000‥100 boundary years of the fallback mapping. -/
theorem c4_counterexample :
    (buildYearMapping [] [] 2026).minYear = -4000 ∧
      (buildYearMapping [] [] 2026).maxYear = 100 ∧
      (buildYearMapping [] [] 2026).scrollToYear (-1) = -8100 ∧
      (buildYearMapping [] [] 2026).scrollToYear (-1) ≠
        (buildYearMapping [] [] 2026).minYear ∧
      (buildYearMapping [] [] 2026).scrollToYear (-1) ≠
        (buildYearMapping [] [] 2026).maxYear := by
  have hval : (buildYearMapping [] [] 2026).scrollToYear (-1) = -8100 := by
    show jsRound (-4000 + (-1 : ℝ) * 4100) = -8100
    unfold jsRound
    have harith : (-4000 : ℝ) + (-1 : ℝ) * 4100 + 1 / 2 = -8099.5 := by norm_num
    rw [harith]
    norm_num
  refine ⟨rfl, rfl, hval, ?_, ?_⟩
  · rw [hval]
    decide
  · rw [hval]
    decide

/-- C4, amended as the counterexample forces: for a mapping built from a
non-empty event list whose event years are all at most the current year,
out-of-domain queries are clamped: `scrollToYear (-1) = minYear`,
`scrollToYear 2 = maxYear`, and `yearToScroll (minYear - 10000)` /
`yearToScroll (maxYear + 10000)` return the boundary positions
`yearToScroll minYear` / `yearToScroll maxYear`.  (The fixed fallback of
the empty event list extrapolates instead of clamping.) -/
theorem c4_clamping (books : List Book) (ms : List Milestone) (cy : ℤ)
    (hne : collectEvents books ms ≠ [])
    (hle : ∀ e ∈ collectEvents books ms, e.year ≤ cy) :
    (buildYearMapping books ms cy).scrollToYear (-1) =
        (buildYearMapping books ms cy).minYear ∧
      (buildYearMapping books ms cy).scrollToYear 2 =
        (buildYearMapping books ms cy).maxYear ∧
      (buildYearMapping books ms cy).yearToScroll
          ((buildYearMapping books ms cy).minYear - 10000) =
        (buildYearMapping books ms cy).yearToScroll
          ((buildYearMapping books ms cy).minYear) ∧
      (buildYearMapping books ms cy).yearToScroll
          ((buildYearMapping books ms cy).maxYear + 10000) =
        (buildYearMapping books ms cy).yearToScroll
          ((buildYearMapping books ms cy).maxYear) := by
  have htne := theTable_ne_nil books ms cy
  have hheadmem := List.head_mem htne
  have hlastmem := List.getLast_mem htne
  have hheadfst : ((theTable books ms cy).head htne).1 =
      (buildYearMapping books ms cy).minYear := by
    rw [theTable_head_fst, uniqueYears_head_eq_minYear books ms cy hne hle]
  have hlastfst : ((theTable books ms cy).getLast htne).1 =
      (buildYearMapping books ms cy).maxYear := by
    rw [theTable_getLast_fst, uniqueYears_getLast_eq_cy books ms cy hle,
      buildYearMapping_maxYear cy hne]
  have hheadpair : ((buildYearMapping books ms cy).minYear,
      ((theTable books ms cy).head htne).2) ∈ theTable books ms cy := by
    rw [← hheadfst, Prod.mk.eta]
    exact hheadmem
  have hlastpair : ((buildYearMapping books ms cy).maxYear,
      ((theTable books ms cy).getLast htne).2) ∈ theTable books ms cy := by
    rw [← hlastfst, Prod.mk.eta]
    exact hlastmem
  have hyhead : (buildYearMapping books ms cy).yearToScroll
      ((buildYearMapping books ms cy).minYear) = ((theTable books ms cy).head htne).2 := by
    rw [buildYearMapping_yearToScroll hne]
    exact yearToScrollFn_lookup (theTable_lookup books ms cy hheadpair)
  have hylast : (buildYearMapping books ms cy).yearToScroll
      ((buildYearMapping books ms cy).maxYear) = ((theTable books ms cy).getLast htne).2 := by
    rw [buildYearMapping_yearToScroll hne]
    exact yearToScrollFn_lookup (theTable_lookup books ms cy hlastpair)
  have hminle := minYear_le_mem_uniqueYears books ms cy hne hle
  have hlecy := mem_uniqueYears_le_cy books ms cy hle
  have hmaxeq := buildYearMapping_maxYear cy hne
  refine ⟨?_, ?_, ?_, ?_⟩
  · rw [buildYearMapping_scrollToYear hne,
      scrollToYearFn_nonpos (theTable books ms cy) htne
        (theTable_snd_bounds01 books ms cy _ hheadmem).1 (by norm_num), hheadfst]
  · have hfirstlt : ((theTable books ms cy).head htne).2 < 1 := by
      have h := (theTable_snd_bounds books ms cy _ hheadmem).2
      have : marginStart + usableRange < 1 := by
        norm_num [marginStart, marginEnd, usableRange]
      linarith
    rw [buildYearMapping_scrollToYear hne,
      scrollToYearFn_ge_one (theTable books ms cy) htne hfirstlt
        (theTable_snd_bounds01 books ms cy _ hlastmem).2 (by norm_num), hlastfst]
  · have hnotin : (theTable books ms cy).lookup
        ((buildYearMapping books ms cy).minYear - 10000) = none := by
      apply lookup_eq_none_of_not_mem
      rw [theTable_map_fst]
      intro hmem
      have := hminle _ hmem
      omega
    rw [buildYearMapping_yearToScroll hne,
      yearToScrollFn_le_first (theTable books ms cy) htne hnotin
        (by rw [hheadfst]; omega)]
    exact (yearToScrollFn_lookup (theTable_lookup books ms cy hheadpair)).symm
  · have hnotin : (theTable books ms cy).lookup
        ((buildYearMapping books ms cy).maxYear + 10000) = none := by
      apply lookup_eq_none_of_not_mem
      rw [theTable_map_fst]
      intro hmem
      have h1 := hlecy _ hmem
      rw [hmaxeq] at h1
      omega
    rw [buildYearMapping_yearToScroll hne,
      yearToScrollFn_ge_last (theTable books ms cy) htne
        (theTable_strict_always books ms cy) hnotin
        (by rw [hlastfst]; omega)]
    exact (yearToScrollFn_lookup (theTable_lookup books ms cy hlastpair)).symm

/-- C4 witness: the amended clamping theorem at a concrete dated book. -/
theorem c4_witness :
    (collectEvents sampleBooks [] ≠ []) ∧
      (∀ e ∈ collectEvents sampleBooks [], e.year ≤ 2026) ∧
      ((buildYearMapping sampleBooks [] 2026).scrollToYear (-1) =
          (buildYearMapping sampleBooks [] 2026).minYear ∧
        (buildYearMapping sampleBooks [] 2026).scrollToYear 2 =
          (buildYearMapping sampleBooks [] 2026).maxYear ∧
        (buildYearMapping sampleBooks [] 2026).yearToScroll
            ((buildYearMapping sampleBooks [] 2026).minYear - 10000) =
          (buildYearMapping sampleBooks [] 2026).yearToScroll
            ((buildYearMapping sampleBooks [] 2026).minYear) ∧
        (buildYearMapping sampleBooks [] 2026).yearToScroll
            ((buildYearMapping sampleBooks [] 2026).maxYear + 10000) =
          (buildYearMapping sampleBooks [] 2026).yearToScroll
            ((buildYearMapping sampleBooks [] 2026).maxYear)) :=
  ⟨by decide, by decide, c4_clamping sampleBooks [] 2026 (by decide) (by decide)⟩

/-! ### Claim C9 -/

/-- C9 failing input: one book whose display range is exactly the current
year, so the grid collapses to the single year 2026. -/
def c9Books : List Book := [⟨some (2026, 2026), none⟩]

/-- C9: with a non-empty event list whose grid is a single year, the
accumulated total weight is 0, yet the normalizer still divides by it:
the lone year's normalized position is `marginStart + (0 / 0) * usableRange`,
which is `marginStart = 0.02` under total real division (and `NaN` under
JS division) — in particular it is not the position 0 the claim
promises, and no special case tolerates the zero total. -/
theorem c9_single_year_divides_by_zero_total :
    uniqueYears c9Books [] 2026 = [2026] ∧
      totalAccumulated (bookRanges c9Books) (milestoneRanges [])
        (uniqueYears c9Books [] 2026) = 0 ∧
      (buildYearMapping c9Books [] 2026).yearToScroll 2026 = marginStart ∧
      (buildYearMapping c9Books [] 2026).yearToScroll 2026 ≠ 0 := by
  have hgrid : uniqueYears c9Books [] 2026 = [2026] := by decide
  have hne : collectEvents c9Books [] ≠ [] := by decide
  have htot : totalAccumulated (bookRanges c9Books) (milestoneRanges [])
      (uniqueYears c9Books [] 2026) = 0 := by
    rw [hgrid]
    simp [totalAccumulated, yearPositions, accList]
  have htab : theTable c9Books [] 2026 = [(2026, marginStart)] := by
    unfold theTable sortedYears normalizedPositions
    rw [hgrid] at htot ⊢
    rw [htot]
    simp [yearPositions, accList]
  have hy : (buildYearMapping c9Books [] 2026).yearToScroll 2026 = marginStart := by
    rw [buildYearMapping_yearToScroll hne, htab]
    simp [yearToScrollFn, List.lookup]
  refine ⟨hgrid, htot, hy, ?_⟩
  rw [hy]
  norm_num [marginStart]

/-! ### Spans of consecutive grid segments -/

theorem chain'_append_cons₂ {α : Type} {R : α → α → Prop} :
    ∀ (L1 : List α) (u v : α) (L2 : List α), List.Chain' R (L1 ++ u :: v :: L2) → R u v := by
  intro L1
  induction L1 with
  | nil => intro u v L2 h; exact (List.chain'_cons.mp h).1
  | cons w L1 ih =>
      intro u v L2 h
      rw [List.cons_append] at h
      exact ih u v L2 h.tail

theorem pairwise_lt_append_cons₂ :
    ∀ (l1 : List ℤ) (u v : ℤ) (l2 : List ℤ),
      List.Pairwise (· < ·) (l1 ++ u :: v :: l2) → u < v := by
  intro l1 u v l2 h
  exact chain'_append_cons₂ l1 u v l2 h.chain'

theorem map_fst_decomp :
    ∀ (l1 : List ℤ) {L : List (ℤ × ℝ)} {x y : ℤ} {l2 : List ℤ},
      L.map Prod.fst = l1 ++ x :: y :: l2 →
      ∃ L1 px py L2, L = L1 ++ (x, px) :: (y, py) :: L2 := by
  intro l1
  induction l1 with
  | nil =>
      intro L x y l2 h
      cases L with
      | nil => simp at h
      | cons p L' =>
          obtain ⟨hp, hrest⟩ : p.1 = x ∧ L'.map Prod.fst = y :: l2 := by
            simpa using h
          cases L' with
          | nil => simp at hrest
          | cons q L'' =>
              obtain ⟨hq, _⟩ : q.1 = y ∧ L''.map Prod.fst = l2 := by
                simpa using hrest
              refine ⟨[], p.2, q.2, L'', ?_⟩
              rw [List.nil_append, ← hp, ← hq, Prod.mk.eta, Prod.mk.eta]
  | cons z l1 ih =>
      intro L x y l2 h
      cases L with
      | nil => simp at h
      | cons p L' =>
          obtain ⟨_, hrest⟩ : p.1 = z ∧ L'.map Prod.fst = l1 ++ x :: y :: l2 := by
            simpa using h
          obtain ⟨L1, px, py, L2, hd⟩ := ih hrest
          refine ⟨p :: L1, px, py, L2, ?_⟩
          rw [hd]
          rfl

theorem theTable_eq (books : List Book) (ms : List Milestone) (cy : ℤ) :
    theTable books ms cy = normalizedPositions (bookRanges books) (milestoneRanges ms)
      (uniqueYears books ms cy) := rfl

/-- The normalized span of the segment between two consecutive grid years
equals the segment's weight divided by the total, times the usable
range. -/
theorem span_eq_weight (books : List Book) (ms : List Milestone) (cy : ℤ)
    (a b : ℤ) (l1 l2 : List ℤ)
    (hgrid : uniqueYears books ms cy = l1 ++ a :: b :: l2) :
    yearToScrollFn (theTable books ms cy) b - yearToScrollFn (theTable books ms cy) a =
      segmentWeight (bookRanges books) (milestoneRanges ms) a b /
        totalAccumulated (bookRanges books) (milestoneRanges ms) (uniqueYears books ms cy) *
        usableRange := by
  have hmap : (yearPositions (bookRanges books) (milestoneRanges ms)
      (uniqueYears books ms cy)).map Prod.fst = l1 ++ a :: b :: l2 := by
    rw [yearPositions_map_fst, hgrid]
  obtain ⟨L1, pa, pb, L2, hdecomp⟩ := map_fst_decomp l1 hmap
  have hchain := yearPositions_chain (bookRanges books) (milestoneRanges ms)
    (uniqueYears books ms cy)
  rw [hdecomp] at hchain
  have hpb : pb = pa + segmentWeight (bookRanges books) (milestoneRanges ms) a b :=
    chain'_append_cons₂ L1 (a, pa) (b, pb) L2 hchain
  have hma : (a, pa) ∈ yearPositions (bookRanges books) (milestoneRanges ms)
      (uniqueYears books ms cy) := by
    rw [hdecomp]
    exact List.mem_append.mpr (Or.inr (List.mem_cons_self _ _))
  have hmb : (b, pb) ∈ yearPositions (bookRanges books) (milestoneRanges ms)
      (uniqueYears books ms cy) := by
    rw [hdecomp]
    exact List.mem_append.mpr (Or.inr (List.mem_cons_of_mem _ (List.mem_cons_self _ _)))
  have hta : (a, marginStart + pa / totalAccumulated (bookRanges books) (milestoneRanges ms)
      (uniqueYears books ms cy) * usableRange) ∈ theTable books ms cy := by
    rw [theTable_eq]
    exact List.mem_map_of_mem _ hma
  have htb : (b, marginStart + pb / totalAccumulated (bookRanges books) (milestoneRanges ms)
      (uniqueYears books ms cy) * usableRange) ∈ theTable books ms cy := by
    rw [theTable_eq]
    exact List.mem_map_of_mem _ hmb
  rw [yearToScrollFn_lookup (theTable_lookup books ms cy hta),
    yearToScrollFn_lookup (theTable_lookup books ms cy htb), hpb, add_div]
  ring

/-! ### Branch evaluations of the segment weight -/

theorem segmentWeight_book_active (br mr : List Range) (a b : ℤ)
    (hc : 0 < (getActiveBooksInfo br (jsRound (((a : ℝ) + (b : ℝ)) / 2))).count) :
    segmentWeight br mr a b =
      Real.sqrt |((b - a : ℤ) : ℝ)| *
        densityMultiplier br (jsRound (((a : ℝ) + (b : ℝ)) / 2)) := by
  unfold segmentWeight
  dsimp only
  rw [if_pos hc]

theorem segmentWeight_inactive (br mr : List Range) (a b : ℤ)
    (hb : (getActiveBooksInfo br (jsRound (((a : ℝ) + (b : ℝ)) / 2))).count = 0)
    (hm : (getActiveMilestonesInfo mr (jsRound (((a : ℝ) + (b : ℝ)) / 2))).count = 0) :
    segmentWeight br mr a b = Real.sqrt |((b - a : ℤ) : ℝ)| := by
  unfold segmentWeight
  dsimp only
  rw [if_neg (by rw [hb]; exact lt_irrefl 0), if_neg (by rw [hm]; exact lt_irrefl 0)]

theorem segmentWeight_milestone_active (br mr : List Range) (a b : ℤ)
    (hb : (getActiveBooksInfo br (jsRound (((a : ℝ) + (b : ℝ)) / 2))).count = 0)
    (hm : 0 < (getActiveMilestonesInfo mr (jsRound (((a : ℝ) + (b : ℝ)) / 2))).count) :
    segmentWeight br mr a b =
      Real.sqrt |((b - a : ℤ) : ℝ)| *
        (40 + ((getActiveMilestonesInfo mr
          (jsRound (((a : ℝ) + (b : ℝ)) / 2))).count : ℝ) * 20) := by
  unfold segmentWeight
  dsimp only
  rw [if_neg (by rw [hb]; exact lt_irrefl 0), if_pos hm]

theorem sqrt_gap_pos {a b : ℤ} (hab : a < b) :
    0 < Real.sqrt |((b - a : ℤ) : ℝ)| := by
  have hone : (1 : ℝ) ≤ ((b - a : ℤ) : ℝ) := by
    exact_mod_cast (by omega : (1 : ℤ) ≤ b - a)
  exact Real.sqrt_pos.mpr (lt_of_lt_of_le one_pos (le_trans hone (le_abs_self _)))

/-- A book-active segment always outweighs an entirely inactive segment
of the same year gap. -/
theorem weight_active_gt_inactive (br mr : List Range) (a b c : ℤ)
    (hgap : b - a = c - b) (hab : a < b)
    (hc1 : 0 < (getActiveBooksInfo br (jsRound (((a : ℝ) + (b : ℝ)) / 2))).count)
    (hc2 : (getActiveBooksInfo br (jsRound (((b : ℝ) + (c : ℝ)) / 2))).count = 0)
    (hm2 : (getActiveMilestonesInfo mr (jsRound (((b : ℝ) + (c : ℝ)) / 2))).count = 0) :
    segmentWeight br mr b c < segmentWeight br mr a b := by
  rw [segmentWeight_inactive br mr b c hc2 hm2, segmentWeight_book_active br mr a b hc1]
  have hgapcast : ((c - b : ℤ) : ℝ) = ((b - a : ℤ) : ℝ) := by
    exact_mod_cast hgap.symm
  rw [hgapcast]
  have hs := sqrt_gap_pos hab
  have hdm := densityMultiplier_ge_four br (jsRound (((a : ℝ) + (b : ℝ)) / 2))
  nlinarith

/-- Mirrored order: an entirely inactive segment always weighs less than
the following book-active segment of the same year gap. -/
theorem weight_inactive_lt_active (br mr : List Range) (a b c : ℤ)
    (hgap : b - a = c - b) (hbc : b < c)
    (hb1 : (getActiveBooksInfo br (jsRound (((a : ℝ) + (b : ℝ)) / 2))).count = 0)
    (hm1 : (getActiveMilestonesInfo mr (jsRound (((a : ℝ) + (b : ℝ)) / 2))).count = 0)
    (hc2 : 0 < (getActiveBooksInfo br (jsRound (((b : ℝ) + (c : ℝ)) / 2))).count) :
    segmentWeight br mr a b < segmentWeight br mr b c := by
  rw [segmentWeight_inactive br mr a b hb1 hm1, segmentWeight_book_active br mr b c hc2]
  have hgapcast : ((b - a : ℤ) : ℝ) = ((c - b : ℤ) : ℝ) := by
    exact_mod_cast hgap
  rw [hgapcast]
  have hs := sqrt_gap_pos hbc
  have hdm := densityMultiplier_ge_four br (jsRound (((b : ℝ) + (c : ℝ)) / 2))
  nlinarith

/-! ### Claim C8 -/

/-- C8 counterexample inputs: one 200-year book over 0‥200, one milestone
with display range 200‥400 — the two adjacent segments (0,200) and
(200,400) have the same raw gap, the first has an active book at its
midpoint, the second has none (only the milestone). -/
def c8Books : List Book := [⟨some (0, 200), none⟩]

def c8Ms : List Milestone := [⟨300, 200, 400⟩]

/-- C8 fails as stated: the milestone emphasis (multiplier 60) on the
book-free segment outweighs the book density multiplier (5.5), so the
segment with the active book gets a strictly SMALLER normalized span than
the adjacent equal-gap segment with zero active book intervals. -/
theorem c8_counterexample :
    0 < (getActiveBooksInfo (bookRanges c8Books)
        (jsRound ((((0 : ℤ) : ℝ) + ((200 : ℤ) : ℝ)) / 2))).count ∧
      (getActiveBooksInfo (bookRanges c8Books)
        (jsRound ((((200 : ℤ) : ℝ) + ((400 : ℤ) : ℝ)) / 2))).count = 0 ∧
      (200 : ℤ) - 0 = 400 - 200 ∧
      uniqueYears c8Books c8Ms 2026 = [0, 200, 400, 2026] ∧
      yearToScrollFn (theTable c8Books c8Ms 2026) 200 -
          yearToScrollFn (theTable c8Books c8Ms 2026) 0 <
        yearToScrollFn (theTable c8Books c8Ms 2026) 400 -
          yearToScrollFn (theTable c8Books c8Ms 2026) 200 := by
  have hmid1 : jsRound ((((0 : ℤ) : ℝ) + ((200 : ℤ) : ℝ)) / 2) = 100 := by
    unfold jsRound
    norm_num
  have hmid2 : jsRound ((((200 : ℤ) : ℝ) + ((400 : ℤ) : ℝ)) / 2) = 300 := by
    unfold jsRound
    norm_num
  have hc1 : 0 < (getActiveBooksInfo (bookRanges c8Books)
      (jsRound ((((0 : ℤ) : ℝ) + ((200 : ℤ) : ℝ)) / 2))).count := by
    rw [hmid1]
    decide
  have hc2 : (getActiveBooksInfo (bookRanges c8Books)
      (jsRound ((((200 : ℤ) : ℝ) + ((400 : ℤ) : ℝ)) / 2))).count = 0 := by
    rw [hmid2]
    decide
  have hm2 : 0 < (getActiveMilestonesInfo (milestoneRanges c8Ms)
      (jsRound ((((200 : ℤ) : ℝ) + ((400 : ℤ) : ℝ)) / 2))).count := by
    rw [hmid2]
    decide
  have hgrid : uniqueYears c8Books c8Ms 2026 = [0, 200, 400, 2026] := by decide
  refine ⟨hc1, hc2, by omega, hgrid, ?_⟩
  have hspan1 := span_eq_weight c8Books c8Ms 2026 0 200 [] [400, 2026] (by rw [hgrid]; rfl)
  have hspan2 := span_eq_weight c8Books c8Ms 2026 200 400 [0] [2026] (by rw [hgrid]; rfl)
  rw [hspan1, hspan2]
  have hw1 := segmentWeight_book_active (bookRanges c8Books) (milestoneRanges c8Ms) 0 200 hc1
  have hw2 := segmentWeight_milestone_active (bookRanges c8Books) (milestoneRanges c8Ms)
    200 400 hc2 hm2
  have hdm : densityMultiplier (bookRanges c8Books) 100 = 5.5 := by
    have hinfo : getActiveBooksInfo (bookRanges c8Books) 100 = ⟨1, [⟨0, 200⟩], some 200⟩ := by
      decide
    unfold densityMultiplier
    rw [hinfo]
    dsimp only
    rw [if_neg (by norm_num : ¬(200 : ℤ) < 100)]
    norm_num
  have hmc : (getActiveMilestonesInfo (milestoneRanges c8Ms) 300).count = 1 := by decide
  rw [hmid1, hdm] at hw1
  rw [hmid2, hmc] at hw2
  have hcast1 : ((200 - 0 : ℤ) : ℝ) = 200 := by norm_num
  have hcast2 : ((400 - 200 : ℤ) : ℝ) = 200 := by norm_num
  rw [hcast1] at hw1
  rw [hcast2] at hw2
  have habs : |(200 : ℝ)| = 200 := abs_of_pos (by norm_num)
  rw [habs] at hw1 hw2
  have hs : 0 < Real.sqrt 200 := Real.sqrt_pos.mpr (by norm_num)
  have hw : segmentWeight (bookRanges c8Books) (milestoneRanges c8Ms) 0 200 <
      segmentWeight (bookRanges c8Books) (milestoneRanges c8Ms) 200 400 := by
    rw [hw1, hw2]
    nlinarith
  have hT : 0 < totalAccumulated (bookRanges c8Books) (milestoneRanges c8Ms)
      (uniqueYears c8Books c8Ms 2026) := by
    apply totalAccumulated_pos _ _ (uniqueYears_sorted_lt c8Books c8Ms 2026)
    rw [hgrid]
    decide
  have hdiv : segmentWeight (bookRanges c8Books) (milestoneRanges c8Ms) 0 200 /
      totalAccumulated (bookRanges c8Books) (milestoneRanges c8Ms)
        (uniqueYears c8Books c8Ms 2026) <
      segmentWeight (bookRanges c8Books) (milestoneRanges c8Ms) 200 400 /
      totalAccumulated (bookRanges c8Books) (milestoneRanges c8Ms)
        (uniqueYears c8Books c8Ms 2026) :=
    (div_lt_div_iff_of_pos_right hT).mpr hw
  exact mul_lt_mul_of_pos_right hdiv usableRange_pos

/-- C8, amended as the counterexample forces: the density-slowdown
comparison holds once the fully inactive comparison segment has no
active book AND no active milestone display-range at its midpoint.  For
any two adjacent grid segments (a,b), (b,c) of equal raw gap, whichever
of the two has an active book at its midpoint receives a strictly larger
normalized span than the other when the other has neither books nor
milestones active — both orders (book-active segment first or second)
are covered. -/
theorem c8_density_slowdown (books : List Book) (ms : List Milestone) (cy : ℤ)
    (a b c : ℤ) (l1 l2 : List ℤ)
    (hgrid : uniqueYears books ms cy = l1 ++ a :: b :: c :: l2)
    (hgap : b - a = c - b) :
    (0 < (getActiveBooksInfo (bookRanges books)
        (jsRound (((a : ℝ) + (b : ℝ)) / 2))).count →
      (getActiveBooksInfo (bookRanges books)
        (jsRound (((b : ℝ) + (c : ℝ)) / 2))).count = 0 →
      (getActiveMilestonesInfo (milestoneRanges ms)
        (jsRound (((b : ℝ) + (c : ℝ)) / 2))).count = 0 →
      yearToScrollFn (theTable books ms cy) c - yearToScrollFn (theTable books ms cy) b <
        yearToScrollFn (theTable books ms cy) b - yearToScrollFn (theTable books ms cy) a) ∧
    ((getActiveBooksInfo (bookRanges books)
        (jsRound (((a : ℝ) + (b : ℝ)) / 2))).count = 0 →
      (getActiveMilestonesInfo (milestoneRanges ms)
        (jsRound (((a : ℝ) + (b : ℝ)) / 2))).count = 0 →
      0 < (getActiveBooksInfo (bookRanges books)
        (jsRound (((b : ℝ) + (c : ℝ)) / 2))).count →
      yearToScrollFn (theTable books ms cy) b - yearToScrollFn (theTable books ms cy) a <
        yearToScrollFn (theTable books ms cy) c - yearToScrollFn (theTable books ms cy) b) := by
  have hspan1 := span_eq_weight books ms cy a b l1 (c :: l2) hgrid
  have hspan2 := span_eq_weight books ms cy b c (l1 ++ [a]) l2 (by rw [hgrid]; simp)
  have hsorted := uniqueYears_sorted_lt books ms cy
  have hab : a < b := pairwise_lt_append_cons₂ l1 a b (c :: l2) (by rw [← hgrid]; exact hsorted)
  have hbc : b < c := pairwise_lt_append_cons₂ (l1 ++ [a]) b c l2 (by
    have h := hsorted
    rw [hgrid] at h
    simpa using h)
  have hT : 0 < totalAccumulated (bookRanges books) (milestoneRanges ms)
      (uniqueYears books ms cy) := by
    apply totalAccumulated_pos _ _ hsorted
    rw [hgrid]
    simp only [List.length_append, List.length_cons]
    omega
  constructor
  · intro hc1 hc2 hm2
    rw [hspan1, hspan2]
    have hw := weight_active_gt_inactive (bookRanges books) (milestoneRanges ms) a b c
      hgap hab hc1 hc2 hm2
    exact mul_lt_mul_of_pos_right ((div_lt_div_iff_of_pos_right hT).mpr hw) usableRange_pos
  · intro hb1 hm1 hc2
    rw [hspan1, hspan2]
    have hw := weight_inactive_lt_active (bookRanges books) (milestoneRanges ms) a b c
      hgap hbc hb1 hm1 hc2
    exact mul_lt_mul_of_pos_right ((div_lt_div_iff_of_pos_right hT).mpr hw) usableRange_pos

/-- C8 witness input: a milestone display range 400‥500 that leaves the
segment (200, 400) entirely inactive (book-active segment first). -/
def c8wMs : List Milestone := [⟨450, 400, 500⟩]

/-- C8 witness inputs for the mirrored order: the book covers 200‥400
and the milestone display range −200‥0 leaves the preceding segment
(0, 200) entirely inactive (book-active segment second). -/
def c8wBooks2 : List Book := [⟨some (200, 400), none⟩]

def c8wMs2 : List Milestone := [⟨-100, -200, 0⟩]

/-- C8 witness: the amended theorem applied to concrete adjacent
equal-gap segments (0,200) and (200,400), in both orders — once with the
book-active segment first, once with it second. -/
theorem c8_witness :
    ((uniqueYears c8Books c8wMs 2026 = [] ++ 0 :: 200 :: 400 :: [500, 2026]) ∧
      ((200 : ℤ) - 0 = 400 - 200) ∧
      (0 < (getActiveBooksInfo (bookRanges c8Books)
        (jsRound ((((0 : ℤ) : ℝ) + ((200 : ℤ) : ℝ)) / 2))).count) ∧
      ((getActiveBooksInfo (bookRanges c8Books)
        (jsRound ((((200 : ℤ) : ℝ) + ((400 : ℤ) : ℝ)) / 2))).count = 0) ∧
      ((getActiveMilestonesInfo (milestoneRanges c8wMs)
        (jsRound ((((200 : ℤ) : ℝ) + ((400 : ℤ) : ℝ)) / 2))).count = 0) ∧
      (yearToScrollFn (theTable c8Books c8wMs 2026) 400 -
          yearToScrollFn (theTable c8Books c8wMs 2026) 200 <
        yearToScrollFn (theTable c8Books c8wMs 2026) 200 -
          yearToScrollFn (theTable c8Books c8wMs 2026) 0)) ∧
    ((uniqueYears c8wBooks2 c8wMs2 2026 = [-200] ++ 0 :: 200 :: 400 :: [2026]) ∧
      ((getActiveBooksInfo (bookRanges c8wBooks2)
        (jsRound ((((0 : ℤ) : ℝ) + ((200 : ℤ) : ℝ)) / 2))).count = 0) ∧
      ((getActiveMilestonesInfo (milestoneRanges c8wMs2)
        (jsRound ((((0 : ℤ) : ℝ) + ((200 : ℤ) : ℝ)) / 2))).count = 0) ∧
      (0 < (getActiveBooksInfo (bookRanges c8wBooks2)
        (jsRound ((((200 : ℤ) : ℝ) + ((400 : ℤ) : ℝ)) / 2))).count) ∧
      (yearToScrollFn (theTable c8wBooks2 c8wMs2 2026) 200 -
          yearToScrollFn (theTable c8wBooks2 c8wMs2 2026) 0 <
        yearToScrollFn (theTable c8wBooks2 c8wMs2 2026) 400 -
          yearToScrollFn (theTable c8wBooks2 c8wMs2 2026) 200)) := by
  have hmid1 : jsRound ((((0 : ℤ) : ℝ) + ((200 : ℤ) : ℝ)) / 2) = 100 := by
    unfold jsRound
    norm_num
  have hmid2 : jsRound ((((200 : ℤ) : ℝ) + ((400 : ℤ) : ℝ)) / 2) = 300 := by
    unfold jsRound
    norm_num
  have h1 : uniqueYears c8Books c8wMs 2026 = [] ++ 0 :: 200 :: 400 :: [500, 2026] := by decide
  have h3 : 0 < (getActiveBooksInfo (bookRanges c8Books)
      (jsRound ((((0 : ℤ) : ℝ) + ((200 : ℤ) : ℝ)) / 2))).count := by
    rw [hmid1]
    decide
  have h4 : (getActiveBooksInfo (bookRanges c8Books)
      (jsRound ((((200 : ℤ) : ℝ) + ((400 : ℤ) : ℝ)) / 2))).count = 0 := by
    rw [hmid2]
    decide
  have h5 : (getActiveMilestonesInfo (milestoneRanges c8wMs)
      (jsRound ((((200 : ℤ) : ℝ) + ((400 : ℤ) : ℝ)) / 2))).count = 0 := by
    rw [hmid2]
    decide
  have g1 : uniqueYears c8wBooks2 c8wMs2 2026 = [-200] ++ 0 :: 200 :: 400 :: [2026] := by
    decide
  have g3 : (getActiveBooksInfo (bookRanges c8wBooks2)
      (jsRound ((((0 : ℤ) : ℝ) + ((200 : ℤ) : ℝ)) / 2))).count = 0 := by
    rw [hmid1]
    decide
  have g4 : (getActiveMilestonesInfo (milestoneRanges c8wMs2)
      (jsRound ((((0 : ℤ) : ℝ) + ((200 : ℤ) : ℝ)) / 2))).count = 0 := by
    rw [hmid1]
    decide
  have g5 : 0 < (getActiveBooksInfo (bookRanges c8wBooks2)
      (jsRound ((((200 : ℤ) : ℝ) + ((400 : ℤ) : ℝ)) / 2))).count := by
    rw [hmid2]
    decide
  refine ⟨⟨h1, by omega, h3, h4, h5, ?_⟩, ⟨g1, g3, g4, g5, ?_⟩⟩
  · exact (c8_density_slowdown c8Books c8wMs 2026 0 200 400 [] [500, 2026]
      h1 (by omega)).1 h3 h4 h5
  · exact (c8_density_slowdown c8wBooks2 c8wMs2 2026 0 200 400 [-200] [2026]
      g1 (by omega)).2 g3 g4 g5

end BibleTimeline
